import Mathlib

/-!
# Verification of the SolarEdge forecast core

Shallow embedding of `custom_components/solaredge_forecast/solaredgeforecast/__init__.py`:
the production-start resolver, the seasonal-average builder, the daily-curve
interpolator and the forecast reconciler, together with the Gregorian-calendar
arithmetic (Python `datetime` / `dateutil.relativedelta` / pandas `date_range`)
that the pipeline relies on.

Proleptic Gregorian dates are modelled by `Date` (year, month, day) and by their
rata-die day number (days since 1970-01-01, negative before); `fromRataDie` and
`toRataDie` convert between the two views.  Energies are rationals: the Python
floats are modelled as exact arithmetic, which is the reading the specification
itself takes ("keep unrounded values internally").
-/

/-- A calendar date `year-month-day` (proleptic Gregorian). -/
structure Date where
  year : Int
  month : Nat
  day : Nat
deriving DecidableEq, Repr

/-- Gregorian leap-year rule, as implemented by Python `datetime`. -/
def isLeapYear (y : Int) : Bool :=
  y % 4 = 0 && (y % 100 != 0 || y % 400 = 0)

/-- Length of a calendar month (pandas `Series.dt.days_in_month`). -/
def daysInMonth (y : Int) (m : Nat) : Nat :=
  if m = 2 then (if isLeapYear y then 29 else 28)
  else if m = 4 ∨ m = 6 ∨ m = 9 ∨ m = 11 then 30
  else 31

/-- A date is valid when its month and day are in calendar range. -/
def Date.Valid (d : Date) : Prop :=
  1 ≤ d.month ∧ d.month ≤ 12 ∧ 1 ≤ d.day ∧ d.day ≤ daysInMonth d.year d.month

instance (d : Date) : Decidable d.Valid := by
  unfold Date.Valid; infer_instance

/-! ## Day-number ↔ date conversion

The conversion works in the March-based calendar: day-of-era `doe` is split
into century `c`, 4-year quad `q` and year-in-quad `ul`; `doy` is the day
within the March-based year, from which shifted month `mp ∈ [0,11]`
(0 = March) and day-of-month are recovered. -/

/-- Shifted month index `mp ∈ [0,11]` (0 = March) of a March-based day of year. -/
def mpOfDoy (doy : Int) : Int := (5 * doy + 2) / 153

/-- Civil month (1–12) of a March-based day of year. -/
def monthOfDoy (doy : Int) : Int :=
  if mpOfDoy doy < 10 then mpOfDoy doy + 3 else mpOfDoy doy - 9

/-- Day of month (1-based) of a March-based day of year. -/
def dayOfDoy (doy : Int) : Int := doy - (153 * mpOfDoy doy + 2) / 5 + 1

/-- Date of day `doe ∈ [0, 146096]` of the 400-year era `era`. -/
def fromDoe (era doe : Int) : Date :=
  let c := min (doe / 36524) 3
  let doc := doe - 36524 * c
  let q := doc / 1461
  let doq := doc % 1461
  let ul := min (doq / 365) 3
  let doy := doq - 365 * ul
  let yoe := 100 * c + 4 * q + ul
  { year := era * 400 + yoe + (if monthOfDoy doy ≤ 2 then 1 else 0)
    month := (monthOfDoy doy).toNat
    day := (dayOfDoy doy).toNat }

/-- Day number → date (standard proleptic-Gregorian civil-from-days). -/
def fromRataDie (z : Int) : Date :=
  fromDoe ((z + 719468) / 146097) ((z + 719468) % 146097)

/-- Date → day number (days since 1970-01-01), standard days-from-civil
formula with floor division. -/
def toRataDie (dt : Date) : Int :=
  let y : Int := if dt.month ≤ 2 then dt.year - 1 else dt.year
  let mp : Int := if 2 < dt.month then (dt.month : Int) - 3 else (dt.month : Int) + 9
  365 * y + y / 4 - y / 100 + y / 400 + (153 * mp + 2) / 5 + (dt.day : Int) - 1 - 719468

example : fromRataDie 0 = ⟨1970, 1, 1⟩ := by decide
example : toRataDie ⟨1970, 1, 1⟩ = 0 := by decide
example : fromRataDie 19738 = ⟨2024, 1, 16⟩ := by decide
example : fromRataDie (-1) = ⟨1969, 12, 31⟩ := by decide
example : toRataDie ⟨2024, 2, 29⟩ - toRataDie ⟨2024, 2, 28⟩ = 1 := by decide
example : toRataDie ⟨2024, 3, 1⟩ - toRataDie ⟨2024, 2, 29⟩ = 1 := by decide
example : toRataDie ⟨1900, 3, 1⟩ - toRataDie ⟨1900, 2, 28⟩ = 1 := by decide
example : toRataDie ⟨2000, 2, 29⟩ - toRataDie ⟨2000, 2, 28⟩ = 1 := by decide
example : fromRataDie (toRataDie ⟨2024, 12, 31⟩) = ⟨2024, 12, 31⟩ := by decide
example : fromRataDie (toRataDie ⟨2100, 2, 28⟩) = ⟨2100, 2, 28⟩ := by decide
example : fromRataDie (toRataDie ⟨1969, 7, 20⟩) = ⟨1969, 7, 20⟩ := by decide

/-- Final reconstruction step: `toRataDie` applied to the date assembled from
era, century, quad, year-in-quad and shifted month/day recovers the day
number.  All hypotheses are plain bounds, so the goal is a small linear
problem. -/
theorem recon_final (era c q ul doy M D : Int)
    (hc : 0 ≤ c) (hc' : c ≤ 3) (hq : 0 ≤ q) (hq' : q ≤ 24)
    (hu : 0 ≤ ul) (hu' : ul ≤ 3) (hdoy : 0 ≤ doy) (hdoy' : doy ≤ 365)
    (hM : 0 ≤ M) (hM' : M ≤ 11) (hD : 1 ≤ D) (hD' : D ≤ 31)
    (hMD : (153 * M + 2) / 5 + D - 1 = doy) :
    toRataDie
      { year := era * 400 + (100 * c + 4 * q + ul) +
          (if (if M < 10 then M + 3 else M - 9) ≤ 2 then 1 else 0)
        month := (if M < 10 then M + 3 else M - 9).toNat
        day := D.toNat } =
      146097 * era + (36524 * c + 1461 * q + 365 * ul + doy) - 719468 := by
  rcases lt_or_le M 10 with hM10 | hM10
  · rw [if_pos hM10, if_neg (by omega : ¬ (M + 3 ≤ 2))]
    unfold toRataDie
    simp only
    rw [if_neg (by omega : ¬ ((M + 3).toNat ≤ 2)),
        if_pos (by omega : 2 < (M + 3).toNat)]
    have e3 : (((M + 3).toNat : Int)) = M + 3 := by omega
    have e5 : ((D.toNat : Int)) = D := by omega
    rw [e3, e5]
    omega
  · rw [if_neg (by omega : ¬ (M < 10)), if_pos (by omega : M - 9 ≤ 2)]
    unfold toRataDie
    simp only
    rw [if_pos (by omega : (M - 9).toNat ≤ 2),
        if_neg (by omega : ¬ (2 < (M - 9).toNat))]
    have e3 : (((M - 9).toNat : Int)) = M - 9 := by omega
    have e5 : ((D.toNat : Int)) = D := by omega
    rw [e3, e5]
    omega

/-- Core reconstruction: `toRataDie` inverts the decomposition performed by
`fromDoe`.  Stated over explicitly named intermediates so that each arithmetic
step is a small linear goal. -/
theorem recon_core (era doe c doc q doq ul doy : Int)
    (hdoe0 : 0 ≤ doe) (hdoe1 : doe ≤ 146096)
    (hc : c = min (doe / 36524) 3) (hdoc : doc = doe - 36524 * c)
    (hq : q = doc / 1461) (hdoq : doq = doc % 1461)
    (hul : ul = min (doq / 365) 3) (hdoy : doy = doq - 365 * ul) :
    toRataDie
      { year := era * 400 + (100 * c + 4 * q + ul) + (if monthOfDoy doy ≤ 2 then 1 else 0)
        month := (monthOfDoy doy).toNat
        day := (dayOfDoy doy).toNat } = 146097 * era + doe - 719468 := by
  have hc' : 0 ≤ c ∧ c ≤ 3 ∧ 0 ≤ doc ∧ doc ≤ 36524 := by omega
  have hq' : 0 ≤ q ∧ q ≤ 24 ∧ 0 ≤ doq ∧ doq ≤ 1460 := by omega
  have hul' : 0 ≤ ul ∧ ul ≤ 3 ∧ 0 ≤ doy ∧ doy ≤ 365 := by omega
  have hmp' : 0 ≤ mpOfDoy doy ∧ mpOfDoy doy ≤ 11 ∧ 1 ≤ dayOfDoy doy ∧ dayOfDoy doy ≤ 31 ∧
      (153 * mpOfDoy doy + 2) / 5 + dayOfDoy doy - 1 = doy := by
    unfold dayOfDoy mpOfDoy; omega
  have hdoe' : doe = 36524 * c + 1461 * q + 365 * ul + doy := by omega
  have h := recon_final era c q ul doy (mpOfDoy doy) (dayOfDoy doy)
    hc'.1 hc'.2.1 hq'.1 hq'.2.1 hul'.1 hul'.2.1 hul'.2.2.1 hul'.2.2.2
    hmp'.1 hmp'.2.1 hmp'.2.2.1 hmp'.2.2.2.1 hmp'.2.2.2.2
  unfold monthOfDoy
  rw [hdoe']
  exact h

/-- Bounds for the shifted month and day recovered from a day of year. -/
theorem monthOfDoy_bounds (K : Int) (h0 : 0 ≤ K) (h1 : K ≤ 365) :
    1 ≤ monthOfDoy K ∧ monthOfDoy K ≤ 12 ∧ 1 ≤ dayOfDoy K ∧ dayOfDoy K ≤ 31 := by
  unfold monthOfDoy dayOfDoy mpOfDoy
  split_ifs <;> omega

/-- The month and day produced by `fromDoe` are always in calendar range. -/
theorem fromDoe_fields (era doe : Int) :
    1 ≤ (fromDoe era doe).month ∧ (fromDoe era doe).month ≤ 12 ∧
    1 ≤ (fromDoe era doe).day ∧ (fromDoe era doe).day ≤ 31 := by
  unfold fromDoe
  dsimp only
  generalize hK : (doe - 36524 * min (doe / 36524) 3) % 1461
      - 365 * min ((doe - 36524 * min (doe / 36524) 3) % 1461 / 365) 3 = K
  have hK' : 0 ≤ K ∧ K ≤ 365 := by omega
  have h := monthOfDoy_bounds K hK'.1 hK'.2
  omega

/-- The month and day produced by `fromRataDie` are always in calendar range. -/
theorem fromRataDie_fields (z : Int) :
    1 ≤ (fromRataDie z).month ∧ (fromRataDie z).month ≤ 12 ∧
    1 ≤ (fromRataDie z).day ∧ (fromRataDie z).day ≤ 31 :=
  fromDoe_fields _ _

/-- Evaluating `fromDoe` on a day-of-era presented as year-of-era `R` plus
day-of-year `K`. -/
theorem fromDoe_eq (era R K : Int) (hR : 0 ≤ R) (hR' : R ≤ 399)
    (hK : 0 ≤ K) (hK' : K ≤ 364) :
    fromDoe era (365 * R + R / 4 - R / 100 + K) =
      { year := era * 400 + R + (if monthOfDoy K ≤ 2 then 1 else 0)
        month := (monthOfDoy K).toNat
        day := (dayOfDoy K).toNat } := by
  unfold fromDoe
  dsimp only
  have hc : min ((365 * R + R / 4 - R / 100 + K) / 36524) 3 = R / 100 := by omega
  rw [hc]
  have hq : (365 * R + R / 4 - R / 100 + K - 36524 * (R / 100)) / 1461 = R % 100 / 4 := by
    omega
  rw [hq]
  have hdoq : (365 * R + R / 4 - R / 100 + K - 36524 * (R / 100)) % 1461
      = 365 * (R % 4) + K := by omega
  rw [hdoq]
  have hul : min ((365 * (R % 4) + K) / 365) 3 = R % 4 := by omega
  rw [hul]
  have hdoy : 365 * (R % 4) + K - 365 * (R % 4) = K := by ring
  rw [hdoy]
  have hyoe : 100 * (R / 100) + 4 * (R % 100 / 4) + R % 4 = R := by omega
  rw [hyoe]

/-- `fromRataDie` of a day number presented as shifted year `yy` plus
day-of-year `K`. -/
theorem fromRataDie_split (yy K : Int) (hK : 0 ≤ K) (hK' : K ≤ 364) :
    fromRataDie (365 * yy + yy / 4 - yy / 100 + yy / 400 + K - 719468) =
      { year := yy + (if monthOfDoy K ≤ 2 then 1 else 0)
        month := (monthOfDoy K).toNat
        day := (dayOfDoy K).toNat } := by
  unfold fromRataDie
  have key : 365 * yy + yy / 4 - yy / 100 + yy / 400 + K - 719468 + 719468
      = 146097 * (yy / 400) + (365 * (yy % 400) + (yy % 400) / 4 - (yy % 400) / 100 + K) := by
    omega
  rw [key]
  have hdiv : (146097 * (yy / 400) + (365 * (yy % 400) + (yy % 400) / 4 - (yy % 400) / 100 + K))
      / 146097 = yy / 400 := by omega
  have hmod : (146097 * (yy / 400) + (365 * (yy % 400) + (yy % 400) / 4 - (yy % 400) / 100 + K))
      % 146097 = 365 * (yy % 400) + (yy % 400) / 4 - (yy % 400) / 100 + K := by omega
  rw [hdiv, hmod, fromDoe_eq (yy / 400) (yy % 400) K (by omega) (by omega) hK hK']
  have hy : yy / 400 * 400 + yy % 400 = yy := by omega
  rw [hy]

/-- Converting the 15th of a calendar month to its day number and back is the
identity. -/
theorem fromRataDie_toRataDie_15 (y : Int) (m : Nat) (h1 : 1 ≤ m) (h2 : m ≤ 12) :
    fromRataDie (toRataDie ⟨y, m, 15⟩) = ⟨y, m, 15⟩ := by
  rcases le_or_lt m 2 with hm | hm
  · have e1 : toRataDie ⟨y, m, 15⟩
        = 365 * (y - 1) + (y - 1) / 4 - (y - 1) / 100 + (y - 1) / 400 +
          ((153 * ((m : Int) + 9) + 2) / 5 + 14) - 719468 := by
      unfold toRataDie
      dsimp only
      rw [if_pos hm, if_neg (by omega : ¬ (2 < m))]
      omega
    rw [e1, fromRataDie_split (y - 1) ((153 * ((m : Int) + 9) + 2) / 5 + 14)
      (by omega) (by omega)]
    have hmp : mpOfDoy ((153 * ((m : Int) + 9) + 2) / 5 + 14) = (m : Int) + 9 := by
      unfold mpOfDoy; omega
    have hmo : monthOfDoy ((153 * ((m : Int) + 9) + 2) / 5 + 14) = (m : Int) := by
      unfold monthOfDoy
      rw [hmp, if_neg (by omega : ¬ ((m : Int) + 9 < 10))]
      omega
    have hda : dayOfDoy ((153 * ((m : Int) + 9) + 2) / 5 + 14) = 15 := by
      unfold dayOfDoy
      rw [hmp]
      omega
    rw [hmo, hda, if_pos (by exact_mod_cast hm : (m : Int) ≤ 2)]
    simp only [Date.mk.injEq]
    refine ⟨by omega, by omega, by omega⟩
  · have e1 : toRataDie ⟨y, m, 15⟩
        = 365 * y + y / 4 - y / 100 + y / 400 +
          ((153 * ((m : Int) - 3) + 2) / 5 + 14) - 719468 := by
      unfold toRataDie
      dsimp only
      rw [if_neg (by omega : ¬ (m ≤ 2)), if_pos hm]
      omega
    rw [e1, fromRataDie_split y ((153 * ((m : Int) - 3) + 2) / 5 + 14)
      (by omega) (by omega)]
    have hmp : mpOfDoy ((153 * ((m : Int) - 3) + 2) / 5 + 14) = (m : Int) - 3 := by
      unfold mpOfDoy; omega
    have hmo : monthOfDoy ((153 * ((m : Int) - 3) + 2) / 5 + 14) = (m : Int) := by
      unfold monthOfDoy
      rw [hmp, if_pos (by omega : (m : Int) - 3 < 10)]
      omega
    have hda : dayOfDoy ((153 * ((m : Int) - 3) + 2) / 5 + 14) = 15 := by
      unfold dayOfDoy
      rw [hmp]
      omega
    rw [hmo, hda, if_neg (by omega : ¬ ((m : Int) ≤ 2))]
    simp only [Date.mk.injEq]
    refine ⟨by omega, by omega, by omega⟩

/-! ## Month arithmetic (`dateutil.relativedelta`) -/

/-- `d + relativedelta(months=k)`: shift by `k` months with year carry, then
clamp the day to the length of the target month. -/
def addMonthsClamped (d : Date) (k : Int) : Date :=
  let t : Int := d.year * 12 + ((d.month : Int) - 1) + k
  let y := t / 12
  let m := (t % 12).toNat + 1
  { year := y, month := m, day := min d.day (daysInMonth y m) }

/-- `d + relativedelta(months=1, day=1)`: first day of the following month. -/
def firstOfNextMonth (d : Date) : Date :=
  { addMonthsClamped d 1 with day := 1 }

example : addMonthsClamped ⟨2024, 3, 31⟩ (-1) = ⟨2024, 2, 29⟩ := by decide
example : addMonthsClamped ⟨2024, 1, 31⟩ 1 = ⟨2024, 2, 29⟩ := by decide
example : addMonthsClamped ⟨2024, 12, 15⟩ 1 = ⟨2025, 1, 15⟩ := by decide
example : firstOfNextMonth ⟨2022, 1, 15⟩ = ⟨2022, 2, 1⟩ := by decide

/-- Raw unfolding of `addMonthsClamped` on a literal date. -/
theorem addMonthsClamped_mk (y : Int) (m dd : Nat) (k : Int) :
    addMonthsClamped ⟨y, m, dd⟩ k =
      { year := (y * 12 + ((m : Int) - 1) + k) / 12
        month := ((y * 12 + ((m : Int) - 1) + k) % 12).toNat + 1
        day := min dd (daysInMonth ((y * 12 + ((m : Int) - 1) + k) / 12)
          (((y * 12 + ((m : Int) - 1) + k) % 12).toNat + 1)) } := rfl

/-- Componentwise congruence for clamped dates. -/
theorem date_mk_congr (y y' : Int) (m m' dd : Nat) (hy : y = y') (hm : m = m') :
    (⟨y, m, min dd (daysInMonth y m)⟩ : Date) = ⟨y', m', min dd (daysInMonth y' m')⟩ := by
  subst hy; subst hm; rfl

/-- Case form of the one-month-back shift. -/
theorem addMonthsClamped_neg1 (y : Int) (m dd : Nat) (h1 : 1 ≤ m) (h12 : m ≤ 12) :
    addMonthsClamped ⟨y, m, dd⟩ (-1) =
      if m = 1 then ⟨y - 1, 12, min dd 31⟩
      else ⟨y, m - 1, min dd (daysInMonth y (m - 1))⟩ := by
  rcases eq_or_ne m 1 with hm | hm
  · subst hm
    rw [if_pos rfl, addMonthsClamped_mk]
    have h := date_mk_congr ((y * 12 + (((1:Nat) : Int) - 1) + (-1)) / 12) (y - 1)
      (((y * 12 + (((1:Nat) : Int) - 1) + (-1)) % 12).toNat + 1) 12 dd
      (by push_cast; omega) (by push_cast; omega)
    rw [h]
    norm_num [daysInMonth]
  · rw [if_neg hm, addMonthsClamped_mk]
    exact date_mk_congr _ _ _ _ dd (by push_cast; omega) (by push_cast; omega)

/-- Case form of the one-month-forward shift. -/
theorem addMonthsClamped_pos1 (y : Int) (m dd : Nat) (h1 : 1 ≤ m) (h12 : m ≤ 12) :
    addMonthsClamped ⟨y, m, dd⟩ 1 =
      if m = 12 then ⟨y + 1, 1, min dd 31⟩
      else ⟨y, m + 1, min dd (daysInMonth y (m + 1))⟩ := by
  rcases eq_or_ne m 12 with hm | hm
  · subst hm
    rw [if_pos rfl, addMonthsClamped_mk]
    have h := date_mk_congr ((y * 12 + (((12:Nat) : Int) - 1) + 1) / 12) (y + 1)
      (((y * 12 + (((12:Nat) : Int) - 1) + 1) % 12).toNat + 1) 1 dd
      (by push_cast; omega) (by push_cast; omega)
    rw [h]
    norm_num [daysInMonth]
  · rw [if_neg hm, addMonthsClamped_mk]
    exact date_mk_congr _ _ _ _ dd (by push_cast; omega) (by push_cast; omega)

/-- Stepping one month back moves the day number back by at least 28 days. -/
theorem padStart_le (y : Int) (m dd : Nat) (h1 : 1 ≤ m) (h12 : m ≤ 12) :
    28 ≤ toRataDie ⟨y, m, dd⟩ - toRataDie (addMonthsClamped ⟨y, m, dd⟩ (-1)) := by
  rw [addMonthsClamped_neg1 y m dd h1 h12]
  interval_cases m <;> (norm_num; unfold toRataDie; norm_num; omega)

/-- Stepping one month forward moves the day number forward by at least 28
days (on valid dates). -/
theorem padEnd_le (y : Int) (m dd : Nat) (hv : Date.Valid ⟨y, m, dd⟩) :
    28 ≤ toRataDie (addMonthsClamped ⟨y, m, dd⟩ 1) - toRataDie ⟨y, m, dd⟩ := by
  have hv' := hv
  unfold Date.Valid at hv'
  obtain ⟨h1, h12, hd1, hd2⟩ := hv'
  rw [addMonthsClamped_pos1 y m dd h1 h12]
  cases hL : isLeapYear y <;>
    (interval_cases m <;>
      (simp only [daysInMonth, hL] at hd2 ⊢ <;> skip) <;>
      (norm_num at hd2 ⊢ <;> skip) <;>
      (unfold toRataDie; norm_num; omega))

/-- Any valid date has a 15th-of-month at most 45 days ahead of it. -/
theorem exists_15_in_window (y : Int) (m dd : Nat) (hv : Date.Valid ⟨y, m, dd⟩) :
    ∃ w : Date, w.day = 15 ∧ 1 ≤ w.month ∧ w.month ≤ 12 ∧
      toRataDie ⟨y, m, dd⟩ ≤ toRataDie w ∧
      toRataDie w ≤ toRataDie ⟨y, m, dd⟩ + 45 := by
  have hv' := hv
  unfold Date.Valid at hv'
  dsimp only at hv'
  obtain ⟨h1, h12, hd1, hd2⟩ := hv'
  rcases le_or_lt dd 15 with hdd | hdd
  · have hsame : toRataDie ⟨y, m, 15⟩ - toRataDie ⟨y, m, dd⟩ = 15 - (dd : Int) := by
      unfold toRataDie
      dsimp only
      split_ifs <;> omega
    exact ⟨⟨y, m, 15⟩, rfl, h1, h12, by omega, by omega⟩
  · refine ⟨if m = 12 then ⟨y + 1, 1, 15⟩ else ⟨y, m + 1, 15⟩, ?_, ?_, ?_, ?_, ?_⟩
    · split_ifs <;> rfl
    · split_ifs <;> dsimp only <;> omega
    · split_ifs <;> dsimp only <;> omega
    all_goals (
      cases hL : isLeapYear y <;>
        (interval_cases m <;>
          (simp only [daysInMonth, hL] at hd2 <;> skip) <;>
          (norm_num at hd2 <;> skip) <;>
          (norm_num; unfold toRataDie; norm_num; omega)))

/-- There is a day number with day-of-month 15 in any 46-day window starting
at a valid date. -/
theorem exists_15_rataDie (y : Int) (m dd : Nat) (hv : Date.Valid ⟨y, m, dd⟩) :
    ∃ n : Int, toRataDie ⟨y, m, dd⟩ ≤ n ∧ n ≤ toRataDie ⟨y, m, dd⟩ + 45 ∧
      (fromRataDie n).day = 15 := by
  obtain ⟨w, hw15, hw1, hw12, hlo, hhi⟩ := exists_15_in_window y m dd hv
  refine ⟨toRataDie w, hlo, hhi, ?_⟩
  have hw : w = ⟨w.year, w.month, 15⟩ := by
    obtain ⟨a, b, c⟩ := w
    simp only at hw15
    rw [hw15]
  rw [hw, fromRataDie_toRataDie_15 w.year w.month hw1 hw12]

/-! ## Production-start resolver (`SolaredgeForecast.__init__` /
`get_solar_forecast`) -/

/-- Caller-supplied `startdate_production` (lines 14–18): advance to the first
of the next month only when the raw date is not already a month start. -/
def resolveStartdateProduction (d : Date) : Date :=
  if 1 < d.day then firstOfNextMonth d else d

/-- Provider-derived production start (lines 41–44):
`strptime(start) + relativedelta(months=1, day=1)`, applied unconditionally. -/
def resolveStartdateFromProvider (d : Date) : Date :=
  firstOfNextMonth d

/-! ## Seasonal-average builder (lines 46–62) -/

/-- One provider row of `get_energy(..., time_unit="MONTH")`: a month-aligned
date and the raw energy total in watt-hours. -/
structure MonthlyRecord where
  date : Date
  energy : ℚ
deriving DecidableEq, Repr

/-- `df = df[df.energy != 0]` (line 54). -/
def retainedRecords (recs : List MonthlyRecord) : List MonthlyRecord :=
  recs.filter (fun r => decide (r.energy ≠ 0))

/-- `df.energy / df.days_in_month / 1000` (line 60): average kWh per day. -/
def dailyEnergy (r : MonthlyRecord) : ℚ :=
  r.energy / (daysInMonth r.date.year r.date.month : ℚ) / 1000

/-- The per-day averages of the retained records of calendar month `m`. -/
def monthGroup (recs : List MonthlyRecord) (m : Nat) : List ℚ :=
  ((retainedRecords recs).filter (fun r => decide (r.date.month = m))).map dailyEnergy

/-- `df.groupby(df.date.dt.month).energy.mean()` (line 62): `none` models a
month number absent from the series index. -/
def monthAverage (recs : List MonthlyRecord) (m : Nat) : Option ℚ :=
  let g := monthGroup recs m
  if g.isEmpty then none else some (g.sum / g.length)

/-! ## Daily-curve interpolator (lines 64–80) -/

/-- `pd.date_range(lo, hi)` as day numbers: all days from `lo` to `hi`. -/
def dayNums (lo hi : Int) : List Int :=
  if lo ≤ hi then (List.range ((hi - lo).toNat + 1)).map (fun i : Nat => lo + (i : Int))
  else []

/-- The `average` row function (lines 73–77): seed the 15th of each month from
the seasonal averages.  The outer `none` models the `KeyError` raised by
`averages[row["month"]]` when the month number is absent; the inner `none` is
the empty cell (`NaN`) of a non-15th row. -/
def seedRow (av : Nat → Option ℚ) (n : Int) : Option (Option ℚ) :=
  if (fromRataDie n).day = 15 then
    match av (fromRataDie n).month with
    | some v => some (some v)
    | none => none
  else some none

/-- Seed every row of the padded range (`daily.apply(average, axis=1)`),
propagating a `KeyError` from any row. -/
def seedCurve (av : Nat → Option ℚ) : List Int → Option (List (Option ℚ))
  | [] => some []
  | n :: ns =>
    match seedRow av n, seedCurve av ns with
    | some o, some rest => some (o :: rest)
    | _, _ => none

/-- The seeded value at position `i`, if any. -/
def seedAt (xs : List (Option ℚ)) (i : Nat) : Option ℚ := (xs.get? i).bind id

/-- Nearest seeded position at or before `i`. -/
def prevSeed (xs : List (Option ℚ)) : Nat → Option (Nat × ℚ)
  | 0 => (seedAt xs 0).map (fun v => (0, v))
  | i + 1 =>
    match seedAt xs (i + 1) with
    | some v => some (i + 1, v)
    | none => prevSeed xs i

/-- Auxiliary upward search for `nextSeed`. -/
def nextSeedAux (xs : List (Option ℚ)) : Nat → Nat → Option (Nat × ℚ)
  | 0, _ => none
  | fuel + 1, i =>
    match seedAt xs i with
    | some v => some (i, v)
    | none => nextSeedAux xs fuel (i + 1)

/-- Nearest seeded position at or after `i`. -/
def nextSeed (xs : List (Option ℚ)) (i : Nat) : Option (Nat × ℚ) :=
  nextSeedAux xs (xs.length - i) i

/-- Value at position `i` of `interpolate(limit_direction='both')`: linear by
position between the neighbouring seeds, flat beyond the outermost seeds,
empty only when there is no seed at all. -/
def interpAt (xs : List (Option ℚ)) (i : Nat) : Option ℚ :=
  match prevSeed xs i, nextSeed xs i with
  | some (j, a), some (k, b) =>
    if j = k then some a else some (a + (b - a) * (((i : ℚ) - (j : ℚ)) / ((k : ℚ) - (j : ℚ))))
  | some (_, a), none => some a
  | none, some (_, b) => some b
  | none, none => none

/-- `daily.interpolate(limit_direction='both')` (line 80), positionally. -/
def interpolate (xs : List (Option ℚ)) : List (Option ℚ) :=
  (List.range xs.length).map (interpAt xs)

/-- First day of the padded range: `startdate - relativedelta(months=1)`. -/
def curveLo (s : Date) : Int := toRataDie (addMonthsClamped s (-1))

/-- Last day of the padded range: `enddate + relativedelta(months=1)`. -/
def curveHi (e : Date) : Int := toRataDie (addMonthsClamped e 1)

/-- Lines 64–80: the padded daily curve, seeded at each 15th and
interpolated; `none` models the `KeyError` escaping `get_solar_forecast`. -/
def buildDailyCurve (av : Nat → Option ℚ) (s e : Date) :
    Option (List (Int × Option ℚ)) :=
  (seedCurve av (dayNums (curveLo s) (curveHi e))).map
    (fun seeds => (dayNums (curveLo s) (curveHi e)).zip (interpolate seeds))

/-! ## Forecast reconciler (lines 82–115) -/

/-- Python 3 `round`: nearest integer, ties to even. -/
def pythonRound (q : ℚ) : Int :=
  if q - q.floor < 1 / 2 then q.floor
  else if 1 / 2 < q - q.floor then q.floor + 1
  else if q.floor % 2 = 0 then q.floor else q.floor + 1

/-- `Rat.floor` agrees with the `FloorRing` floor, enabling `norm_num`
evaluation. -/
theorem ratFloor_eq_intFloor (q : ℚ) : q.floor = ⌊q⌋ :=
  (Rat.floor_def' q).trans Rat.floor_def.symm

example : pythonRound (5 / 2) = 2 := by norm_num [pythonRound, ratFloor_eq_intFloor]
example : pythonRound (7 / 2) = 4 := by norm_num [pythonRound, ratFloor_eq_intFloor]
example : pythonRound (-3 / 2) = -2 := by norm_num [pythonRound, ratFloor_eq_intFloor]
example : pythonRound (27 / 10) = 3 := by norm_num [pythonRound, ratFloor_eq_intFloor]

/-- The four outputs of `get_solar_forecast` (lines 109–113). -/
structure ForecastResult where
  produced : Int
  estimated : Int
  forecast : Int
  progress : Int
deriving DecidableEq, Repr

/-- `max(0, energy_produced_today - energy_estimated_today)` (line 99). -/
def energyProducedTodayExtra (producedToday estimatedToday : ℚ) : ℚ :=
  max 0 (producedToday - estimatedToday)

/-- `daily.loc[a:b]['energy'].sum()`: label slicing on the sorted date index
is inclusive on both ends and clips out-of-range labels; `NaN` sums as 0. -/
def sliceSum (c : List (Int × Option ℚ)) (a b : Int) : ℚ :=
  ((c.filter (fun p => decide (a ≤ p.1) && decide (p.1 ≤ b))).map
    (fun p => p.2.getD 0)).sum

/-- Lines 82–115: combine the daily curve with the metered totals (both in
watt-hours) into the rounded four-field result. -/
def reconcile (c : List (Int × Option ℚ)) (startN endN todayN : Int)
    (energyYearWh energyTodayWh : ℚ) : ForecastResult :=
  let yesterdayN := todayN - 1
  let tomorrowN := todayN + 1
  let energy_estimated_from_tomorrow := sliceSum c tomorrowN endN
  let energy_estimated_until_yesterday := sliceSum c startN yesterdayN
  let energy_estimated_today := sliceSum c todayN todayN
  let energy_estimated_period := energy_estimated_today + energy_estimated_from_tomorrow
  let energy_production_until_now := energyYearWh / 1000
  let energy_produced_today := energyTodayWh / 1000
  let energy_produced_until_yesterday := energy_production_until_now - energy_produced_today
  let extra := energyProducedTodayExtra energy_produced_today energy_estimated_today
  let energy_production_progress :=
    energy_produced_until_yesterday - energy_estimated_until_yesterday + extra
  let forecast := energy_estimated_period + energy_production_until_now
  { produced := pythonRound energy_production_until_now
    estimated := pythonRound energy_estimated_period
    forecast := pythonRound forecast
    progress := pythonRound energy_production_progress }

/-- The whole pipeline downstream of the provider calls: seasonal averages
from the monthly history, daily curve over the padded request range, then
reconciliation against the metered year-range and today totals. -/
def getSolarForecast (recs : List MonthlyRecord) (s e today : Date)
    (energyYearWh energyTodayWh : ℚ) : Option ForecastResult :=
  (buildDailyCurve (monthAverage recs) s e).map
    (fun c => reconcile c (toRataDie s) (toRataDie e) (toRataDie today)
      energyYearWh energyTodayWh)

/-! ## Properties of the positional interpolation -/

theorem seedAt_of_ge (xs : List (Option ℚ)) (i : Nat) (h : xs.length ≤ i) :
    seedAt xs i = none := by
  unfold seedAt
  rw [List.get?_eq_none.mpr h]
  rfl

theorem seedAt_lt_length {xs : List (Option ℚ)} {i : Nat} {v : ℚ}
    (h : seedAt xs i = some v) : i < xs.length := by
  by_contra hc
  rw [seedAt_of_ge xs i (by omega)] at h
  exact Option.noConfusion h

theorem prevSeed_spec {xs : List (Option ℚ)} :
    ∀ {i j : Nat} {a : ℚ}, prevSeed xs i = some (j, a) → j ≤ i ∧ seedAt xs j = some a := by
  intro i
  induction i with
  | zero =>
    intro j a h
    unfold prevSeed at h
    cases hs : seedAt xs 0 with
    | none => rw [hs] at h; exact Option.noConfusion h
    | some v =>
      rw [hs] at h
      simp only [Option.map_some'] at h
      obtain ⟨h1, h2⟩ := Prod.mk.injEq _ _ _ _ ▸ Option.some.inj h
      subst h1; subst h2
      exact ⟨Nat.le_refl 0, hs⟩
  | succ i ih =>
    intro j a h
    unfold prevSeed at h
    cases hs : seedAt xs (i + 1) with
    | none =>
      rw [hs] at h
      obtain ⟨h1, h2⟩ := ih h
      exact ⟨Nat.le_succ_of_le h1, h2⟩
    | some v =>
      rw [hs] at h
      obtain ⟨h1, h2⟩ := Prod.mk.injEq _ _ _ _ ▸ Option.some.inj h
      subst h1; subst h2
      exact ⟨Nat.le_refl _, hs⟩

theorem prevSeed_self {xs : List (Option ℚ)} {i : Nat} {v : ℚ}
    (h : seedAt xs i = some v) : prevSeed xs i = some (i, v) := by
  cases i with
  | zero => unfold prevSeed; rw [h]; rfl
  | succ i => unfold prevSeed; rw [h]

theorem prevSeed_of_le {xs : List (Option ℚ)} {j : Nat} {v : ℚ}
    (hj : seedAt xs j = some v) :
    ∀ {i : Nat}, j ≤ i → ∃ p, prevSeed xs i = some p := by
  intro i
  induction i with
  | zero =>
    intro hle
    have : j = 0 := Nat.le_zero.mp hle
    subst this
    exact ⟨(0, v), prevSeed_self hj⟩
  | succ i ih =>
    intro hle
    rcases Nat.eq_or_lt_of_le hle with hlt | hlt
    · subst hlt
      exact ⟨(i + 1, v), prevSeed_self hj⟩
    · obtain ⟨p, hp⟩ := ih (by omega)
      unfold prevSeed
      cases hs : seedAt xs (i + 1) with
      | none => exact ⟨p, hp⟩
      | some w => exact ⟨(i + 1, w), rfl⟩

/-- A found previous seed is the nearest one: everything strictly between is
empty. -/
theorem prevSeed_min {xs : List (Option ℚ)} :
    ∀ {i j : Nat} {a : ℚ}, prevSeed xs i = some (j, a) →
      ∀ l, j < l → l ≤ i → seedAt xs l = none := by
  intro i
  induction i with
  | zero => intro j a _ l h1 h2; omega
  | succ i ih =>
    intro j a h l h1 h2
    unfold prevSeed at h
    cases hs : seedAt xs (i + 1) with
    | none =>
      rw [hs] at h
      rcases Nat.eq_or_lt_of_le h2 with he | hlt
      · subst he; exact hs
      · exact ih h l h1 (by omega)
    | some v =>
      rw [hs] at h
      obtain ⟨h3, _⟩ := Prod.mk.injEq _ _ _ _ ▸ Option.some.inj h
      omega

/-- When everything in `(j, i]` is empty and `j` is seeded, the previous seed
from `i` is exactly `j`. -/
theorem prevSeed_eq_of {xs : List (Option ℚ)} {j : Nat} {v : ℚ}
    (hj : seedAt xs j = some v) :
    ∀ {i : Nat}, j ≤ i → (∀ l, j < l → l ≤ i → seedAt xs l = none) →
      prevSeed xs i = some (j, v) := by
  intro i
  induction i with
  | zero =>
    intro hle _
    have : j = 0 := Nat.le_zero.mp hle
    subst this
    exact prevSeed_self hj
  | succ i ih =>
    intro hle hnone
    rcases Nat.eq_or_lt_of_le hle with he | hlt
    · subst he
      exact prevSeed_self hj
    · unfold prevSeed
      rw [hnone (i + 1) (by omega) (Nat.le_refl _)]
      exact ih (by omega) (fun l a b => hnone l a (by omega))

theorem nextSeedAux_spec {xs : List (Option ℚ)} :
    ∀ {fuel i k : Nat} {b : ℚ}, nextSeedAux xs fuel i = some (k, b) →
      i ≤ k ∧ seedAt xs k = some b := by
  intro fuel
  induction fuel with
  | zero => intro i k b h; exact Option.noConfusion h
  | succ fuel ih =>
    intro i k b h
    unfold nextSeedAux at h
    cases hs : seedAt xs i with
    | none =>
      rw [hs] at h
      obtain ⟨h1, h2⟩ := ih h
      exact ⟨by omega, h2⟩
    | some v =>
      rw [hs] at h
      obtain ⟨h1, h2⟩ := Prod.mk.injEq _ _ _ _ ▸ Option.some.inj h
      subst h1; subst h2
      exact ⟨Nat.le_refl _, hs⟩

theorem nextSeed_spec {xs : List (Option ℚ)} {i k : Nat} {b : ℚ}
    (h : nextSeed xs i = some (k, b)) : i ≤ k ∧ seedAt xs k = some b :=
  nextSeedAux_spec h

theorem nextSeed_self {xs : List (Option ℚ)} {i : Nat} {v : ℚ}
    (h : seedAt xs i = some v) : nextSeed xs i = some (i, v) := by
  have hlt : i < xs.length := seedAt_lt_length h
  unfold nextSeed
  have hfuel : xs.length - i = (xs.length - i - 1) + 1 := by omega
  rw [hfuel]
  unfold nextSeedAux
  rw [h]

theorem nextSeedAux_of {xs : List (Option ℚ)} {j : Nat} {v : ℚ}
    (hj : seedAt xs j = some v) :
    ∀ {fuel i : Nat}, i ≤ j → j < i + fuel → ∃ p, nextSeedAux xs fuel i = some p := by
  intro fuel
  induction fuel with
  | zero => intro i h1 h2; omega
  | succ fuel ih =>
    intro i h1 h2
    unfold nextSeedAux
    cases hs : seedAt xs i with
    | none =>
      have hij : i ≠ j := fun he => by rw [he, hj] at hs; exact Option.noConfusion hs
      obtain ⟨p, hp⟩ := ih (i := i + 1) (by omega) (by omega)
      exact ⟨p, hp⟩
    | some w => exact ⟨(i, w), rfl⟩

theorem nextSeed_of_ge {xs : List (Option ℚ)} {j : Nat} {v : ℚ}
    (hj : seedAt xs j = some v) {i : Nat} (hle : i ≤ j) :
    ∃ p, nextSeed xs i = some p := by
  have hlt : j < xs.length := seedAt_lt_length hj
  exact nextSeedAux_of hj hle (by omega)

/-- A found next seed is the nearest one: everything strictly before it (from
`i`) is empty. -/
theorem nextSeedAux_min {xs : List (Option ℚ)} :
    ∀ {fuel i k : Nat} {b : ℚ}, nextSeedAux xs fuel i = some (k, b) →
      ∀ l, i ≤ l → l < k → seedAt xs l = none := by
  intro fuel
  induction fuel with
  | zero => intro i k b h; exact Option.noConfusion h
  | succ fuel ih =>
    intro i k b h l h1 h2
    unfold nextSeedAux at h
    cases hs : seedAt xs i with
    | none =>
      rw [hs] at h
      rcases Nat.eq_or_lt_of_le h1 with he | hlt
      · subst he; exact hs
      · exact ih h l (by omega) h2
    | some w =>
      rw [hs] at h
      obtain ⟨h3, _⟩ := Prod.mk.injEq _ _ _ _ ▸ Option.some.inj h
      omega

/-- When everything in `[i, j)` is empty and `j` is seeded, the next seed from
`i` is exactly `j`. -/
theorem nextSeed_eq_of {xs : List (Option ℚ)} {j : Nat} {v : ℚ}
    (hj : seedAt xs j = some v) :
    ∀ {fuel i : Nat}, i ≤ j → j < i + fuel → (∀ l, i ≤ l → l < j → seedAt xs l = none) →
      nextSeedAux xs fuel i = some (j, v) := by
  intro fuel
  induction fuel with
  | zero => intro i h1 h2; omega
  | succ fuel ih =>
    intro i h1 h2 hnone
    unfold nextSeedAux
    rcases Nat.eq_or_lt_of_le h1 with he | hlt
    · subst he
      rw [hj]
    · rw [hnone i (Nat.le_refl _) (by omega)]
      exact ih (by omega) (by omega) (fun l a b => hnone l (by omega) b)

theorem nextSeed_none {xs : List (Option ℚ)} {i : Nat}
    (h : nextSeed xs i = none) : ∀ j, i ≤ j → seedAt xs j = none := by
  intro j hij
  cases hs : seedAt xs j with
  | none => rfl
  | some v =>
    obtain ⟨p, hp⟩ := nextSeed_of_ge hs hij
    rw [hp] at h
    exact Option.noConfusion h

/-- A convex combination stays between common bounds of its endpoints. -/
theorem convex_bound {A B a b t : ℚ} (hA : A ≤ a) (ha : a ≤ B) (hb1 : A ≤ b)
    (hb2 : b ≤ B) (ht0 : 0 ≤ t) (ht1 : t ≤ 1) :
    A ≤ a + (b - a) * t ∧ a + (b - a) * t ≤ B := by
  constructor
  · nlinarith [mul_nonneg (sub_nonneg.mpr hA) (sub_nonneg.mpr ht1),
      mul_nonneg (sub_nonneg.mpr hb1) ht0]
  · nlinarith [mul_nonneg (sub_nonneg.mpr ha) (sub_nonneg.mpr ht1),
      mul_nonneg (sub_nonneg.mpr hb2) ht0]

/-- The interpolation coefficient lies in `[0, 1]`. -/
theorem interp_t_bounds {j i k : Nat} (h1 : j ≤ i) (h2 : i ≤ k) (h3 : j < k) :
    0 ≤ ((i : ℚ) - (j : ℚ)) / ((k : ℚ) - (j : ℚ)) ∧
      ((i : ℚ) - (j : ℚ)) / ((k : ℚ) - (j : ℚ)) ≤ 1 := by
  have hj : (j : ℚ) ≤ (i : ℚ) := by exact_mod_cast h1
  have hi : (i : ℚ) ≤ (k : ℚ) := by exact_mod_cast h2
  have hd : (j : ℚ) < (k : ℚ) := by exact_mod_cast h3
  constructor
  · apply div_nonneg <;> linarith
  · rw [div_le_one (by linarith)]
    linarith

/-- Interpolation keeps seeded values unchanged. -/
theorem interpAt_seed {xs : List (Option ℚ)} {i : Nat} {v : ℚ}
    (h : seedAt xs i = some v) : interpAt xs i = some v := by
  unfold interpAt
  rw [prevSeed_self h, nextSeed_self h]
  simp

/-- With at least one seed anywhere, interpolation is defined everywhere. -/
theorem interpAt_isSome {xs : List (Option ℚ)} {j : Nat} {v : ℚ}
    (hj : seedAt xs j = some v) (i : Nat) : (interpAt xs i).isSome := by
  unfold interpAt
  cases hp : prevSeed xs i with
  | some p =>
    obtain ⟨j', a⟩ := p
    cases hn : nextSeed xs i with
    | some q => obtain ⟨k', b⟩ := q; dsimp only; split_ifs <;> simp
    | none => simp
  | none =>
    cases hn : nextSeed xs i with
    | some q => obtain ⟨k', b⟩ := q; simp
    | none =>
      rcases le_or_lt j i with hji | hji
      · obtain ⟨p, hp'⟩ := prevSeed_of_le hj hji
        rw [hp'] at hp
        exact Option.noConfusion hp
      · obtain ⟨p, hp'⟩ := nextSeed_of_ge hj (le_of_lt hji)
        rw [hp'] at hn
        exact Option.noConfusion hn

/-- Every interpolated value lies between any common bounds of the seeds. -/
theorem interpAt_bounds {xs : List (Option ℚ)} {A B : ℚ}
    (hseeds : ∀ j v, seedAt xs j = some v → A ≤ v ∧ v ≤ B) :
    ∀ i w, interpAt xs i = some w → A ≤ w ∧ w ≤ B := by
  intro i w h
  unfold interpAt at h
  cases hp : prevSeed xs i with
  | none =>
    rw [hp] at h
    cases hn : nextSeed xs i with
    | none => rw [hn] at h; exact Option.noConfusion h
    | some q =>
      obtain ⟨k, b⟩ := q
      rw [hn] at h
      obtain rfl := Option.some.inj h
      exact hseeds k b (nextSeed_spec hn).2
  | some p =>
    obtain ⟨j, a⟩ := p
    rw [hp] at h
    cases hn : nextSeed xs i with
    | none =>
      rw [hn] at h
      obtain rfl := Option.some.inj h
      exact hseeds j a (prevSeed_spec hp).2
    | some q =>
      obtain ⟨k, b⟩ := q
      rw [hn] at h
      dsimp only at h
      by_cases hjk : j = k
      · rw [if_pos hjk] at h
        obtain rfl := Option.some.inj h
        exact hseeds j a (prevSeed_spec hp).2
      · rw [if_neg hjk] at h
        obtain rfl := Option.some.inj h
        obtain ⟨hj1, hj2⟩ := prevSeed_spec hp
        obtain ⟨hk1, hk2⟩ := nextSeed_spec hn
        obtain ⟨hA1, hA2⟩ := hseeds j a hj2
        obtain ⟨hB1, hB2⟩ := hseeds k b hk2
        obtain ⟨ht0, ht1⟩ := interp_t_bounds hj1 hk1 (by omega)
        exact convex_bound hA1 hA2 hB1 hB2 ht0 ht1

/-- If all seeds carry the same value, every interpolated value equals it. -/
theorem interpAt_const {xs : List (Option ℚ)} {X : ℚ}
    (hseeds : ∀ j v, seedAt xs j = some v → v = X)
    {i : Nat} {w : ℚ} (h : interpAt xs i = some w) : w = X := by
  have hb : ∀ j v, seedAt xs j = some v → X ≤ v ∧ v ≤ X := fun j v hv => by
    rw [hseeds j v hv]
    exact ⟨le_refl X, le_refl X⟩
  have h2 := interpAt_bounds hb i w h
  linarith [h2.1, h2.2]

/-- Positions up to the first seed take the first seed's value (flat
backward fill). -/
theorem interpAt_before_first {xs : List (Option ℚ)} {k : Nat} {b : ℚ}
    (hfirst : nextSeed xs 0 = some (k, b)) {i : Nat} (hik : i ≤ k) :
    interpAt xs i = some b := by
  rcases Nat.eq_or_lt_of_le hik with he | hlt
  · subst he
    exact interpAt_seed (nextSeed_spec hfirst).2
  · have hnone : ∀ l, l < k → seedAt xs l = none := fun l hl =>
      nextSeedAux_min hfirst l (Nat.zero_le l) hl
    have hp : prevSeed xs i = none := by
      cases hp : prevSeed xs i with
      | none => rfl
      | some p =>
        obtain ⟨j, a⟩ := p
        obtain ⟨hj1, hj2⟩ := prevSeed_spec hp
        rw [hnone j (by omega)] at hj2
        exact Option.noConfusion hj2
    have hk2 := (nextSeed_spec hfirst).2
    have hn : nextSeed xs i = some (k, b) := by
      unfold nextSeed
      exact nextSeed_eq_of hk2 (by omega) (by have := seedAt_lt_length hk2; omega)
        (fun l h1 h2 => hnone l h2)
    unfold interpAt
    rw [hp, hn]

/-- Positions from the last seed on take the last seed's value (flat forward
fill). -/
theorem interpAt_after_last {xs : List (Option ℚ)} {k : Nat} {b : ℚ}
    (hlast : prevSeed xs (xs.length - 1) = some (k, b)) {i : Nat}
    (hik : k ≤ i) : interpAt xs i = some b := by
  rcases Nat.eq_or_lt_of_le hik with he | hlt
  · subst he
    exact interpAt_seed (prevSeed_spec hlast).2
  · have hnone : ∀ l, k < l → seedAt xs l = none := by
      intro l hl
      rcases le_or_lt l (xs.length - 1) with h | h
      · exact prevSeed_min hlast l hl h
      · exact seedAt_of_ge xs l (by omega)
    have hk2 := (prevSeed_spec hlast).2
    have hp : prevSeed xs i = some (k, b) :=
      prevSeed_eq_of hk2 (by omega) (fun l h1 _ => hnone l h1)
    have hn : nextSeed xs i = none := by
      cases hn : nextSeed xs i with
      | none => rfl
      | some q =>
        obtain ⟨k', b'⟩ := q
        obtain ⟨h1, h2⟩ := nextSeed_spec hn
        rw [hnone k' (by omega)] at h2
        exact Option.noConfusion h2
    unfold interpAt
    rw [hp, hn]

theorem interpolate_length (xs : List (Option ℚ)) :
    (interpolate xs).length = xs.length := by
  unfold interpolate
  rw [List.length_map, List.length_range]

theorem interpolate_get (xs : List (Option ℚ)) (i : Nat) (hi : i < xs.length) :
    (interpolate xs).get? i = some (interpAt xs i) := by
  unfold interpolate
  rw [List.get?_map, List.get?_range hi]
  rfl

/-! ## Properties of the seeded curve -/

theorem dayNums_length (lo hi : Int) (h : lo ≤ hi) :
    (dayNums lo hi).length = (hi - lo).toNat + 1 := by
  unfold dayNums
  rw [if_pos h, List.length_map, List.length_range]

theorem dayNums_get (lo hi : Int) (h : lo ≤ hi) (i : Nat)
    (hi' : i < (hi - lo).toNat + 1) :
    (dayNums lo hi).get? i = some (lo + i) := by
  unfold dayNums
  rw [if_pos h, List.get?_map, List.get?_range hi']
  rfl

theorem dayNums_mem (lo hi n : Int) : n ∈ dayNums lo hi ↔ lo ≤ n ∧ n ≤ hi := by
  unfold dayNums
  split_ifs with h
  · simp only [List.mem_map, List.mem_range]
    constructor
    · rintro ⟨i, hmem, rfl⟩
      omega
    · intro ⟨h1, h2⟩
      exact ⟨(n - lo).toNat, by omega, by omega⟩
  · simp only [List.not_mem_nil, false_iff]
    omega

theorem seedRow_not15 {av : Nat → Option ℚ} {n : Int}
    (h : (fromRataDie n).day ≠ 15) : seedRow av n = some none := by
  unfold seedRow
  rw [if_neg h]

theorem seedRow_15 {av : Nat → Option ℚ} {n : Int} {v : ℚ}
    (h : (fromRataDie n).day = 15) (hv : av (fromRataDie n).month = some v) :
    seedRow av n = some (some v) := by
  unfold seedRow
  rw [if_pos h, hv]

/-- A succeeded seed row with a value comes from a seeded 15th. -/
theorem seedRow_some_inv {av : Nat → Option ℚ} {n : Int} {v : ℚ}
    (h : seedRow av n = some (some v)) :
    (fromRataDie n).day = 15 ∧ av (fromRataDie n).month = some v := by
  unfold seedRow at h
  split_ifs at h with h15
  · cases hv : av (fromRataDie n).month with
    | none => rw [hv] at h; exact Option.noConfusion h
    | some w =>
      rw [hv] at h
      have hwv : w = v := Option.some.inj (Option.some.inj h)
      subst hwv
      exact ⟨h15, rfl⟩
  · obtain h' := Option.some.inj h
    exact Option.noConfusion h'

theorem seedRow_none_iff {av : Nat → Option ℚ} {n : Int} :
    seedRow av n = none ↔
      (fromRataDie n).day = 15 ∧ av (fromRataDie n).month = none := by
  unfold seedRow
  split_ifs with h15
  · cases hv : av (fromRataDie n).month <;> simp [h15]
  · simp [h15]

theorem seedCurve_length {av : Nat → Option ℚ} :
    ∀ {ds : List Int} {xs : List (Option ℚ)}, seedCurve av ds = some xs →
      xs.length = ds.length := by
  intro ds
  induction ds with
  | nil =>
    intro xs h
    obtain rfl := Option.some.inj h
    rfl
  | cons n ns ih =>
    intro xs h
    unfold seedCurve at h
    cases hr : seedRow av n with
    | none => rw [hr] at h; exact Option.noConfusion h
    | some o =>
      rw [hr] at h
      cases hc : seedCurve av ns with
      | none => rw [hc] at h; exact Option.noConfusion h
      | some rest =>
        rw [hc] at h
        obtain rfl := Option.some.inj h
        simp only [List.length_cons, ih hc]

theorem seedCurve_get {av : Nat → Option ℚ} :
    ∀ {ds : List Int} {xs : List (Option ℚ)}, seedCurve av ds = some xs →
      ∀ {i : Nat} {n : Int}, ds.get? i = some n →
        ∃ o, seedRow av n = some o ∧ xs.get? i = some o := by
  intro ds
  induction ds with
  | nil => intro xs _ i n hn; rw [List.get?_eq_none.mpr (by simp)] at hn; exact Option.noConfusion hn
  | cons hd tl ih =>
    intro xs h i n hn
    unfold seedCurve at h
    cases hr : seedRow av hd with
    | none => rw [hr] at h; exact Option.noConfusion h
    | some o =>
      rw [hr] at h
      cases hc : seedCurve av tl with
      | none => rw [hc] at h; exact Option.noConfusion h
      | some rest =>
        rw [hc] at h
        obtain rfl := Option.some.inj h
        cases i with
        | zero =>
          obtain rfl := Option.some.inj hn
          exact ⟨o, hr, rfl⟩
        | succ i => exact ih hc hn

theorem seedCurve_isSome_of {av : Nat → Option ℚ} :
    ∀ {ds : List Int},
      (∀ n ∈ ds, (fromRataDie n).day = 15 → (av (fromRataDie n).month).isSome) →
      (seedCurve av ds).isSome := by
  intro ds
  induction ds with
  | nil => intro _; rfl
  | cons hd tl ih =>
    intro hall
    unfold seedCurve
    have hhd : (seedRow av hd).isSome := by
      unfold seedRow
      split_ifs with h15
      · cases hv : av (fromRataDie hd).month with
        | none =>
          have := hall hd (List.mem_cons_self hd tl) h15
          rw [hv] at this
          exact absurd this (by simp)
        | some w => rfl
      · rfl
    have htl := ih (fun n hn h15 => hall n (List.mem_cons_of_mem hd hn) h15)
    cases hr : seedRow av hd with
    | none => rw [hr] at hhd; exact absurd hhd (by simp)
    | some o =>
      cases hc : seedCurve av tl with
      | none => rw [hc] at htl; exact absurd htl (by simp)
      | some rest => rfl

theorem seedCurve_none_iff {av : Nat → Option ℚ} :
    ∀ {ds : List Int}, seedCurve av ds = none ↔ ∃ n ∈ ds, seedRow av n = none := by
  intro ds
  induction ds with
  | nil => simp [seedCurve]
  | cons hd tl ih =>
    constructor
    · intro h
      unfold seedCurve at h
      cases hr : seedRow av hd with
      | none => exact ⟨hd, List.mem_cons_self hd tl, hr⟩
      | some o =>
        rw [hr] at h
        cases hc : seedCurve av tl with
        | none =>
          obtain ⟨n, hn, hrow⟩ := ih.mp hc
          exact ⟨n, List.mem_cons_of_mem hd hn, hrow⟩
        | some rest => rw [hc] at h; exact Option.noConfusion h
    · rintro ⟨n, hn, hrow⟩
      unfold seedCurve
      rcases List.mem_cons.mp hn with rfl | hn'
      · rw [hrow]
      · cases hr : seedRow av hd with
        | none => rfl
        | some o => rw [ih.mpr ⟨n, hn', hrow⟩]

/-- Indexing a zip. -/
theorem zip_get {α β : Type} :
    ∀ (l1 : List α) (l2 : List β) (i : Nat) (a : α) (b : β),
      l1.get? i = some a → l2.get? i = some b → (l1.zip l2).get? i = some (a, b) := by
  intro l1
  induction l1 with
  | nil => intro l2 i a b h; rw [List.get?_eq_none.mpr (by simp)] at h; exact Option.noConfusion h
  | cons x xs ih =>
    intro l2 i a b h1 h2
    cases l2 with
    | nil => rw [List.get?_eq_none.mpr (by simp)] at h2; exact Option.noConfusion h2
    | cons y ys =>
      cases i with
      | zero =>
        obtain rfl := Option.some.inj h1
        obtain rfl := Option.some.inj h2
        rfl
      | succ i => exact ih ys i a b h1 h2

/-- Inverting an index into a zip. -/
theorem zip_get_inv {α β : Type} :
    ∀ (l1 : List α) (l2 : List β) (i : Nat) (a : α) (b : β),
      (l1.zip l2).get? i = some (a, b) → l1.get? i = some a ∧ l2.get? i = some b := by
  intro l1
  induction l1 with
  | nil => intro l2 i a b h; rw [List.get?_eq_none.mpr (by simp)] at h; exact Option.noConfusion h
  | cons x xs ih =>
    intro l2 i a b h
    cases l2 with
    | nil => rw [List.get?_eq_none.mpr (by simp [List.zip])] at h; exact Option.noConfusion h
    | cons y ys =>
      cases i with
      | zero =>
        obtain h' := Option.some.inj h
        rw [Prod.ext_iff] at h'
        obtain ⟨h1, h2⟩ := h'
        dsimp only at h1 h2
        subst h1; subst h2
        exact ⟨rfl, rfl⟩
      | succ i => exact ih ys i a b h

theorem daysInMonth_bounds (y : Int) (m : Nat) :
    28 ≤ daysInMonth y m ∧ daysInMonth y m ≤ 31 := by
  unfold daysInMonth
  split_ifs <;> omega

/-- Month shifts preserve validity. -/
theorem addMonthsClamped_valid (d : Date) (hv : d.Valid) (k : Int) :
    (addMonthsClamped d k).Valid := by
  obtain ⟨y, m, dd⟩ := d
  have hv' := hv
  unfold Date.Valid at hv' ⊢
  dsimp only at hv'
  unfold addMonthsClamped
  dsimp only
  have hdim := daysInMonth_bounds ((y * 12 + ((m : Int) - 1) + k) / 12)
    (((y * 12 + ((m : Int) - 1) + k) % 12).toNat + 1)
  exact ⟨by omega, by omega, by omega, by omega⟩

theorem exists_15_from (p : Date) (hp : p.Valid) :
    ∃ n : Int, toRataDie p ≤ n ∧ n ≤ toRataDie p + 45 ∧ (fromRataDie n).day = 15 := by
  obtain ⟨y, m, dd⟩ := p
  exact exists_15_rataDie y m dd hp

/-- The padded range extends at least 28 days beyond the request on each
side. -/
theorem curve_window (s e : Date) (hs : s.Valid) (he : e.Valid) :
    curveLo s + 28 ≤ toRataDie s ∧ toRataDie e + 28 ≤ curveHi e := by
  constructor
  · obtain ⟨y, m, dd⟩ := s
    have hv' := hs
    unfold Date.Valid at hv'
    dsimp only at hv'
    have h := padStart_le y m dd hv'.1 hv'.2.1
    unfold curveLo
    omega
  · obtain ⟨y, m, dd⟩ := e
    have h := padEnd_le y m dd he
    unfold curveHi
    omega

/-- A successfully seeded padded curve always contains at least one seed
(some 15th-of-month falls in the padded range). -/
theorem curve_seed_exists (av : Nat → Option ℚ) (s e : Date) (hs : s.Valid)
    (he : e.Valid) (hse : toRataDie s ≤ toRataDie e) {xs : List (Option ℚ)}
    (h : seedCurve av (dayNums (curveLo s) (curveHi e)) = some xs) :
    ∃ i v, seedAt xs i = some v := by
  have hw := curve_window s e hs he
  have hpv : (addMonthsClamped s (-1)).Valid := addMonthsClamped_valid s hs (-1)
  obtain ⟨n, hn1, hn2, hn15⟩ := exists_15_from (addMonthsClamped s (-1)) hpv
  have hn1' : curveLo s ≤ n := hn1
  have hn2' : n ≤ curveLo s + 45 := hn2
  have hlole : curveLo s ≤ curveHi e := by omega
  have hidx : (n - curveLo s).toNat < (curveHi e - curveLo s).toNat + 1 := by omega
  have hget := dayNums_get (curveLo s) (curveHi e) hlole (n - curveLo s).toNat hidx
  have hn_eq : curveLo s + ((n - curveLo s).toNat : Int) = n := by omega
  rw [hn_eq] at hget
  obtain ⟨o, hrow, hxs⟩ := seedCurve_get h hget
  cases o with
  | none =>
    unfold seedRow at hrow
    rw [if_pos hn15] at hrow
    cases hav : av (fromRataDie n).month with
    | none => rw [hav] at hrow; exact Option.noConfusion hrow
    | some w =>
      rw [hav] at hrow
      exact Option.noConfusion (Option.some.inj hrow)
  | some v =>
    refine ⟨(n - curveLo s).toNat, v, ?_⟩
    unfold seedAt
    rw [hxs]
    rfl

/-! ## Slice sums -/

theorem sliceSum_nil (a b : Int) : sliceSum [] a b = 0 := rfl

theorem sliceSum_cons (hd : Int × Option ℚ) (tl : List (Int × Option ℚ)) (a b : Int) :
    sliceSum (hd :: tl) a b =
      (if a ≤ hd.1 ∧ hd.1 ≤ b then hd.2.getD 0 else 0) + sliceSum tl a b := by
  unfold sliceSum
  by_cases h : a ≤ hd.1 ∧ hd.1 ≤ b
  · rw [List.filter_cons_of_pos (by simp [h.1, h.2]), if_pos h]
    simp only [List.map_cons, List.sum_cons]
  · rw [List.filter_cons_of_neg (by simp only [Bool.and_eq_true, decide_eq_true_eq]; exact h),
      if_neg h]
    simp only [zero_add]

theorem sliceSum_zero_of {c : List (Int × Option ℚ)} {a b : Int}
    (h : ∀ p ∈ c, ¬(a ≤ p.1 ∧ p.1 ≤ b)) : sliceSum c a b = 0 := by
  induction c with
  | nil => rfl
  | cons hd tl ih =>
    rw [sliceSum_cons, if_neg (h hd (List.mem_cons_self hd tl)),
      ih (fun p hp => h p (List.mem_cons_of_mem hd hp))]
    ring

/-- On a strictly sorted curve, the one-day slice at a present key returns
exactly that day's value. -/
theorem sliceSum_singleton {c : List (Int × Option ℚ)}
    (hs : c.Pairwise (fun p q => p.1 < q.1)) {t : Int} {ov : Option ℚ}
    (hm : (t, ov) ∈ c) : sliceSum c t t = ov.getD 0 := by
  induction c with
  | nil => cases hm
  | cons hd tl ih =>
    obtain ⟨hhd, htl⟩ := List.pairwise_cons.mp hs
    rcases List.mem_cons.mp hm with he | hmem
    · have he' : hd = (t, ov) := he.symm
      subst he'
      rw [sliceSum_cons, if_pos ⟨le_refl t, le_refl t⟩]
      rw [sliceSum_zero_of (fun p hp => by have := hhd p hp; dsimp only at this; omega)]
      ring
    · have hlt : hd.1 < t := hhd (t, ov) hmem
      rw [sliceSum_cons, if_neg (by omega), ih htl hmem]
      ring

/-- A slice over a constant curve sums the constant over the keys in range. -/
theorem sliceSum_const {c : List (Int × Option ℚ)} {X : ℚ}
    (h : ∀ p ∈ c, p.2 = some X) (a b : Int) :
    sliceSum c a b =
      X * ((c.filter (fun p => decide (a ≤ p.1) && decide (p.1 ≤ b))).length : ℚ) := by
  induction c with
  | nil => simp [sliceSum_nil]
  | cons hd tl ih =>
    have hhd := h hd (List.mem_cons_self hd tl)
    have ih' := ih (fun p hp => h p (List.mem_cons_of_mem hd hp))
    rw [sliceSum_cons, ih']
    by_cases hc : a ≤ hd.1 ∧ hd.1 ≤ b
    · rw [if_pos hc,
        List.filter_cons_of_pos (by simp [hc.1, hc.2]), List.length_cons, hhd]
      push_cast
      simp only [Option.getD_some]
      ring
    · rw [if_neg hc,
        List.filter_cons_of_neg (by simp only [Bool.and_eq_true, decide_eq_true_eq]; exact hc)]
      ring

/-- Filtering a zip by a key predicate counts the same as filtering the
keys. -/
theorem zip_filter_fst_length {α β : Type} (f : α → Bool) :
    ∀ (l1 : List α) (l2 : List β), l2.length = l1.length →
      ((l1.zip l2).filter (fun p => f p.1)).length = (l1.filter f).length := by
  intro l1
  induction l1 with
  | nil => intro l2 h; rfl
  | cons x xs ih =>
    intro l2 h
    cases l2 with
    | nil => simp at h
    | cons y ys =>
      simp only [List.zip_cons_cons, List.filter_cons]
      dsimp only
      by_cases hf : f x = true
      · rw [if_pos hf, if_pos hf]
        simp only [List.length_cons]
        rw [ih ys (by simpa using h)]
      · rw [if_neg hf, if_neg hf]
        exact ih ys (by simpa using h)

theorem range_map_filter_length (a b lo : Int) :
    ∀ N : Nat, (((List.range N).map (fun i : Nat => lo + (i : Int))).filter
        (fun n => decide (a ≤ n) && decide (n ≤ b))).length
      = (min b (lo + N - 1) - max a lo + 1).toNat := by
  intro N
  induction N with
  | zero =>
    simp only [List.range_zero, List.map_nil, List.filter_nil, List.length_nil]
    omega
  | succ N ih =>
    rw [List.range_succ, List.map_append, List.filter_append, List.length_append, ih]
    simp only [List.map_cons, List.map_nil]
    by_cases h1 : a ≤ lo + (N : Int)
    · by_cases h2 : lo + (N : Int) ≤ b
      · rw [List.filter_cons_of_pos (by simp [h1, h2]), List.filter_nil]
        simp only [List.length_cons, List.length_nil]
        push_cast
        omega
      · rw [List.filter_cons_of_neg (by simp [h1, h2]), List.filter_nil]
        simp only [List.length_nil]
        push_cast
        omega
    · rw [List.filter_cons_of_neg (by simp [h1]), List.filter_nil]
      simp only [List.length_nil]
      push_cast
      omega

theorem dayNums_filter_length (lo hi a b : Int) (h : lo ≤ hi) :
    ((dayNums lo hi).filter (fun n => decide (a ≤ n) && decide (n ≤ b))).length
      = (min b hi - max a lo + 1).toNat := by
  unfold dayNums
  rw [if_pos h, range_map_filter_length]
  push_cast
  omega

/-- `toRataDie` is a left inverse of `fromRataDie`. -/
theorem toRataDie_fromRataDie (z : Int) : toRataDie (fromRataDie z) = z := by
  have h := recon_core ((z + 719468) / 146097) ((z + 719468) % 146097)
    (min ((z + 719468) % 146097 / 36524) 3)
    ((z + 719468) % 146097 - 36524 * min ((z + 719468) % 146097 / 36524) 3)
    (((z + 719468) % 146097 - 36524 * min ((z + 719468) % 146097 / 36524) 3) / 1461)
    (((z + 719468) % 146097 - 36524 * min ((z + 719468) % 146097 / 36524) 3) % 1461)
    (min ((((z + 719468) % 146097 - 36524 * min ((z + 719468) % 146097 / 36524) 3) % 1461) / 365) 3)
    ((((z + 719468) % 146097 - 36524 * min ((z + 719468) % 146097 / 36524) 3) % 1461)
      - 365 * min ((((z + 719468) % 146097 - 36524 * min ((z + 719468) % 146097 / 36524) 3) % 1461) / 365) 3)
    (by omega) (by omega) rfl rfl rfl rfl rfl rfl
  have hz : 146097 * ((z + 719468) / 146097) + (z + 719468) % 146097 - 719468 = z := by omega
  rw [hz] at h
  exact h

/-! ## Claim theorems -/

/-- C1: for every daily curve and provider totals (both in Wh), the
reconciler returns exactly estimated = curve value at today plus the sum over
(tomorrow, end]; produced = yearly energy / 1000; progress = (produced −
today's energy/1000 − sum over [start, yesterday]) + max(0, today's
energy/1000 − curve value at today); forecast = estimated + produced; each
output rounded to the nearest integer only as the final step, with all
intermediate arithmetic unrounded. -/
theorem C1_reconcile_exact (c : List (Int × Option ℚ)) (startN endN todayN : Int)
    (energyYearWh energyTodayWh : ℚ) (v : ℚ)
    (hsorted : c.Pairwise (fun p q => p.1 < q.1))
    (hmem : (todayN, some v) ∈ c) :
    reconcile c startN endN todayN energyYearWh energyTodayWh =
      { produced := pythonRound (energyYearWh / 1000)
        estimated := pythonRound (v + sliceSum c (todayN + 1) endN)
        forecast := pythonRound ((v + sliceSum c (todayN + 1) endN) + energyYearWh / 1000)
        progress := pythonRound ((energyYearWh / 1000 - energyTodayWh / 1000
            - sliceSum c startN (todayN - 1))
          + max 0 (energyTodayWh / 1000 - v)) } := by
  have hsing : sliceSum c todayN todayN = v := by
    rw [sliceSum_singleton hsorted hmem]
    rfl
  unfold reconcile energyProducedTodayExtra
  dsimp only
  rw [hsing]

/-- C1 witness: the reconciler formula at a concrete three-day curve. -/
theorem C1_witness :
    ([((0:Int), some (2:ℚ)), (1, some 3), (2, some 5)].Pairwise
        (fun p q => p.1 < q.1)) ∧
    ((1, some (3:ℚ)) ∈ [((0:Int), some (2:ℚ)), (1, some 3), (2, some 5)]) ∧
    reconcile [((0:Int), some (2:ℚ)), (1, some 3), (2, some 5)] 0 2 1 4000 2500 =
      { produced := pythonRound ((4000:ℚ) / 1000)
        estimated := pythonRound ((3:ℚ) +
          sliceSum [((0:Int), some (2:ℚ)), (1, some 3), (2, some 5)] 2 2)
        forecast := pythonRound (((3:ℚ) +
          sliceSum [((0:Int), some (2:ℚ)), (1, some 3), (2, some 5)] 2 2) + 4000 / 1000)
        progress := pythonRound (((4000:ℚ) / 1000 - 2500 / 1000
            - sliceSum [((0:Int), some (2:ℚ)), (1, some 3), (2, some 5)] 0 0)
          + max 0 ((2500:ℚ) / 1000 - 3)) } :=
  ⟨by decide, by decide,
    C1_reconcile_exact _ 0 2 1 4000 2500 3 (by decide) (by decide)⟩

/-- C8: today's extra production is `max(0, actual − estimate)`, hence never
negative, and exactly zero whenever production is below the estimate. -/
theorem C8_today_extra (producedToday estimatedToday : ℚ) :
    energyProducedTodayExtra producedToday estimatedToday
        = max 0 (producedToday - estimatedToday) ∧
    0 ≤ energyProducedTodayExtra producedToday estimatedToday ∧
    (producedToday ≤ estimatedToday →
      energyProducedTodayExtra producedToday estimatedToday = 0) := by
  unfold energyProducedTodayExtra
  exact ⟨rfl, le_max_left _ _, fun h => max_eq_left (by linarith)⟩

/-- C8 witness: a day whose production is below the estimate. -/
theorem C8_witness :
    energyProducedTodayExtra 1 2 = max 0 (1 - 2) ∧
    0 ≤ energyProducedTodayExtra 1 2 ∧
    ((1:ℚ) ≤ 2 → energyProducedTodayExtra 1 2 = 0) :=
  C8_today_extra 1 2

/-- C4: a zero-Wh month never contributes to the seasonal average of its
month number (records with zero raw energy are dropped before averaging). -/
theorem C4_zero_excluded (recs₁ recs₂ : List MonthlyRecord) (r : MonthlyRecord)
    (hr : r.energy = 0) (m : Nat) :
    monthAverage (recs₁ ++ r :: recs₂) m = monthAverage (recs₁ ++ recs₂) m := by
  unfold monthAverage monthGroup retainedRecords
  simp only [List.filter_append]
  rw [List.filter_cons_of_neg (by simp [hr])]

/-- C4 witness: history [Jan 2023: 0 Wh, Jan 2022: 3100 Wh] gives the month-1
average 3100/31/1000 kWh/day, undiluted by the zero month. -/
theorem C4_witness :
    (MonthlyRecord.mk ⟨2023, 1, 1⟩ 0).energy = 0 ∧
    monthAverage [⟨⟨2023, 1, 1⟩, 0⟩, ⟨⟨2022, 1, 1⟩, 3100⟩] 1
      = monthAverage [⟨⟨2022, 1, 1⟩, 3100⟩] 1 ∧
    monthAverage [⟨⟨2022, 1, 1⟩, 3100⟩] 1 = some (3100 / 31 / 1000) :=
  ⟨rfl,
    C4_zero_excluded [] [⟨⟨2022, 1, 1⟩, 3100⟩] ⟨⟨2023, 1, 1⟩, 0⟩ rfl 1,
    by norm_num [monthAverage, monthGroup, retainedRecords, dailyEnergy,
      daysInMonth, isLeapYear, List.filter, List.isEmpty]⟩

/-- C5: every retained record's daily average is (raw Wh / days in its
calendar month) / 1000, and each month number's seasonal average is the
arithmetic mean of those daily averages over the retained records with that
month number. -/
theorem C5_mean_formula (recs : List MonthlyRecord) (m : Nat) (q : ℚ)
    (h : monthAverage recs m = some q) :
    monthGroup recs m ≠ [] ∧
    monthGroup recs m = (recs.filter (fun r => decide (r.date.month = m)
        && decide (r.energy ≠ 0))).map
      (fun r => r.energy / (daysInMonth r.date.year r.date.month : ℚ) / 1000) ∧
    q = (monthGroup recs m).sum / (monthGroup recs m).length := by
  unfold monthAverage at h
  by_cases hg : (monthGroup recs m).isEmpty
  · rw [if_pos hg] at h
    exact Option.noConfusion h
  · rw [if_neg hg] at h
    refine ⟨by simpa [List.isEmpty_iff] using hg, ?_, (Option.some.inj h).symm⟩
    unfold monthGroup retainedRecords
    rw [List.filter_filter]
    unfold dailyEnergy
    rfl

/-- C5 witness: two Januaries (3100 Wh and 6200 Wh) average to 3/20 kWh/day. -/
theorem C5_witness :
    monthAverage [⟨⟨2022, 1, 1⟩, 3100⟩, ⟨⟨2023, 1, 1⟩, 6200⟩] 1 = some (3 / 20) ∧
    (monthGroup [⟨⟨2022, 1, 1⟩, 3100⟩, ⟨⟨2023, 1, 1⟩, 6200⟩] 1 ≠ [] ∧
     monthGroup [⟨⟨2022, 1, 1⟩, 3100⟩, ⟨⟨2023, 1, 1⟩, 6200⟩] 1
       = (([⟨⟨2022, 1, 1⟩, 3100⟩, ⟨⟨2023, 1, 1⟩, 6200⟩] : List MonthlyRecord).filter
            (fun r => decide (r.date.month = 1) && decide (r.energy ≠ 0))).map
          (fun r => r.energy / (daysInMonth r.date.year r.date.month : ℚ) / 1000) ∧
     (3 / 20 : ℚ) = (monthGroup [⟨⟨2022, 1, 1⟩, 3100⟩, ⟨⟨2023, 1, 1⟩, 6200⟩] 1).sum
       / (monthGroup [⟨⟨2022, 1, 1⟩, 3100⟩, ⟨⟨2023, 1, 1⟩, 6200⟩] 1).length) := by
  have h : monthAverage [⟨⟨2022, 1, 1⟩, 3100⟩, ⟨⟨2023, 1, 1⟩, 6200⟩] 1
      = some (3 / 20) := by
    norm_num [monthAverage, monthGroup, retainedRecords, dailyEnergy,
      daysInMonth, isLeapYear, List.filter, List.isEmpty]
  exact ⟨h, C5_mean_formula _ 1 (3 / 20) h⟩

/-- C6 counterexample: a provider-derived raw production start that is already
the 1st of a month is nevertheless advanced a whole month (2022-02-01 resolves
to 2022-03-01, not 2022-02-01), contradicting the claim for the
provider-derived path. -/
theorem C6_counterexample :
    resolveStartdateFromProvider ⟨2022, 2, 1⟩ ≠ ⟨2022, 2, 1⟩ ∧
    resolveStartdateFromProvider ⟨2022, 2, 1⟩ = ⟨2022, 3, 1⟩ := by
  constructor <;> decide

/-- C6 (amended): the caller-supplied path resolves as claimed (unchanged on
the 1st, else the first of the following month), but the provider-derived
path always advances to the first of the following month, even from a
month-aligned date. -/
theorem C6_resolver_amended (d : Date) (hv : d.Valid) :
    (d.day = 1 → resolveStartdateProduction d = d) ∧
    (1 < d.day → resolveStartdateProduction d =
      (if d.month = 12 then ⟨d.year + 1, 1, 1⟩ else ⟨d.year, d.month + 1, 1⟩)) ∧
    resolveStartdateFromProvider d =
      (if d.month = 12 then ⟨d.year + 1, 1, 1⟩ else ⟨d.year, d.month + 1, 1⟩) := by
  obtain ⟨y, m, dd⟩ := d
  have hv' := hv
  unfold Date.Valid at hv'
  dsimp only at hv'
  have hfnm : firstOfNextMonth ⟨y, m, dd⟩ =
      (if m = 12 then ⟨y + 1, 1, 1⟩ else ⟨y, m + 1, 1⟩) := by
    unfold firstOfNextMonth
    rw [addMonthsClamped_pos1 y m dd hv'.1 hv'.2.1]
    split_ifs <;> rfl
  dsimp only
  refine ⟨?_, ?_, ?_⟩
  · intro h1
    unfold resolveStartdateProduction
    dsimp only
    rw [if_neg (by omega)]
  · intro h1
    unfold resolveStartdateProduction
    dsimp only
    rw [if_pos h1]
    exact hfnm
  · unfold resolveStartdateFromProvider
    exact hfnm

/-- C6 witness: the amended resolver behaviour at 2022-01-15 (the spec's own
scenario: resolves to 2022-02-01 on the caller path). -/
theorem C6_witness :
    (Date.Valid ⟨2022, 1, 15⟩) ∧
    (((⟨2022, 1, 15⟩ : Date).day = 1 →
        resolveStartdateProduction ⟨2022, 1, 15⟩ = ⟨2022, 1, 15⟩) ∧
      (1 < (⟨2022, 1, 15⟩ : Date).day →
        resolveStartdateProduction ⟨2022, 1, 15⟩ =
          (if (⟨2022, 1, 15⟩ : Date).month = 12
            then ⟨(⟨2022, 1, 15⟩ : Date).year + 1, 1, 1⟩
            else ⟨(⟨2022, 1, 15⟩ : Date).year, (⟨2022, 1, 15⟩ : Date).month + 1, 1⟩)) ∧
      resolveStartdateFromProvider ⟨2022, 1, 15⟩ =
        (if (⟨2022, 1, 15⟩ : Date).month = 12
          then ⟨(⟨2022, 1, 15⟩ : Date).year + 1, 1, 1⟩
          else ⟨(⟨2022, 1, 15⟩ : Date).year, (⟨2022, 1, 15⟩ : Date).month + 1, 1⟩)) :=
  ⟨by decide, C6_resolver_amended ⟨2022, 1, 15⟩ (by decide)⟩

/-- C2: when all 12 calendar month numbers are present in the seasonal
averages, the curve is built without error and its value on the 15th of every
month covered by the padded range equals exactly that month's seasonal
average. -/
theorem C2_fifteenths_match (av : Nat → Option ℚ)
    (hall : ∀ m : Nat, 1 ≤ m → m ≤ 12 → (av m).isSome) (s e : Date) :
    ∃ c, buildDailyCurve av s e = some c ∧
      ∀ p ∈ c, (fromRataDie p.1).day = 15 → p.2 = av (fromRataDie p.1).month := by
  have hsome : (seedCurve av (dayNums (curveLo s) (curveHi e))).isSome := by
    apply seedCurve_isSome_of
    intro n _ _
    exact hall (fromRataDie n).month (fromRataDie_fields n).1 (fromRataDie_fields n).2.1
  obtain ⟨xs, hxs⟩ := Option.isSome_iff_exists.mp hsome
  refine ⟨(dayNums (curveLo s) (curveHi e)).zip (interpolate xs), ?_, ?_⟩
  · unfold buildDailyCurve
    rw [hxs]
    rfl
  · intro p hp h15
    obtain ⟨i, hi⟩ := List.mem_iff_get?.mp hp
    have hi' : ((dayNums (curveLo s) (curveHi e)).zip (interpolate xs)).get? i
        = some (p.1, p.2) := by rw [Prod.mk.eta]; exact hi
    obtain ⟨hd, hv⟩ := zip_get_inv _ _ i p.1 p.2 hi'
    have hi_lt : i < xs.length := by
      obtain ⟨hlt, _⟩ := List.get?_eq_some.mp hv
      rw [interpolate_length] at hlt
      exact hlt
    rw [interpolate_get xs i hi_lt] at hv
    have hp2 : p.2 = interpAt xs i := (Option.some.inj hv).symm
    obtain ⟨o, hrow, hxsi⟩ := seedCurve_get hxs hd
    obtain ⟨wv, hw⟩ := Option.isSome_iff_exists.mp
      (hall (fromRataDie p.1).month (fromRataDie_fields p.1).1
        (fromRataDie_fields p.1).2.1)
    have hrow' : seedRow av p.1 = some (some wv) := seedRow_15 h15 hw
    have ho : o = some wv := Option.some.inj ((hrow.symm).trans hrow')
    subst ho
    have hseed : seedAt xs i = some wv := by
      unfold seedAt
      rw [hxsi]
      rfl
    rw [hp2, interpAt_seed hseed, hw]

/-- C2 witness: an averages table with every month present, over March 2024. -/
theorem C2_witness :
    (∀ m : Nat, 1 ≤ m → m ≤ 12 → ((fun _ : Nat => some (1:ℚ)) m).isSome) ∧
    ∃ c, buildDailyCurve (fun _ : Nat => some (1:ℚ)) ⟨2024, 3, 1⟩ ⟨2024, 3, 31⟩
        = some c ∧
      ∀ p ∈ c, (fromRataDie p.1).day = 15 →
        p.2 = (fun _ : Nat => some (1:ℚ)) (fromRataDie p.1).month :=
  ⟨fun _ _ _ => rfl,
    C2_fifteenths_match (fun _ : Nat => some (1:ℚ)) (fun _ _ _ => rfl)
      ⟨2024, 3, 1⟩ ⟨2024, 3, 31⟩⟩

/-- C7 counterexample: a history with only January data (so the seasonal
averages are missing month numbers) does not degrade gracefully — the whole
pipeline aborts with a `KeyError` (modelled as `none`) instead of returning a
ForecastResult, because the padded March range contains a 15th of a missing
month. -/
theorem C7_counterexample :
    getSolarForecast [⟨⟨2023, 1, 1⟩, 31000⟩] ⟨2024, 3, 1⟩ ⟨2024, 3, 1⟩
      ⟨2024, 3, 15⟩ 450000 12000 = none := by decide

/-- C7 (amended): seeding raises a lookup error (aborting the computation,
no result returned) exactly when some day of the padded range is the 15th of
a month number absent from the seasonal averages; otherwise the computation
completes. -/
theorem C7_missing_month_raises (av : Nat → Option ℚ) (s e : Date) :
    buildDailyCurve av s e = none ↔
      ∃ n ∈ dayNums (curveLo s) (curveHi e), (fromRataDie n).day = 15 ∧
        av (fromRataDie n).month = none := by
  unfold buildDailyCurve
  rw [Option.map_eq_none', seedCurve_none_iff]
  constructor
  · rintro ⟨n, hn, hrow⟩
    exact ⟨n, hn, seedRow_none_iff.mp hrow⟩
  · rintro ⟨n, hn, h15, hav⟩
    exact ⟨n, hn, seedRow_none_iff.mpr ⟨h15, hav⟩⟩

/-- C10: every value of a successfully interpolated daily curve lies between
any lower and upper bound common to all seasonal-average values (in
particular between their minimum and maximum): each day is a seed, a convex
combination of two neighbouring seeds, or a flat copy of a boundary seed. -/
theorem C10_values_bounded (av : Nat → Option ℚ) (A B : ℚ)
    (hav : ∀ m v, av m = some v → A ≤ v ∧ v ≤ B) (s e : Date)
    (c : List (Int × Option ℚ)) (hc : buildDailyCurve av s e = some c) :
    ∀ p ∈ c, ∀ v, p.2 = some v → A ≤ v ∧ v ≤ B := by
  unfold buildDailyCurve at hc
  obtain ⟨xs, hxs, hzip⟩ := Option.map_eq_some'.mp hc
  subst hzip
  have hseeds : ∀ j w, seedAt xs j = some w → A ≤ w ∧ w ≤ B := by
    intro j w hw
    have hj : j < xs.length := seedAt_lt_length hw
    have hlen := seedCurve_length hxs
    obtain ⟨n, hn⟩ : ∃ n, (dayNums (curveLo s) (curveHi e)).get? j = some n := by
      cases hng : (dayNums (curveLo s) (curveHi e)).get? j with
      | none => rw [List.get?_eq_none] at hng; omega
      | some n => exact ⟨n, rfl⟩
    obtain ⟨o, hrow, hxsj⟩ := seedCurve_get hxs hn
    have ho : o = some w := by
      unfold seedAt at hw
      rw [hxsj] at hw
      exact hw
    subst ho
    obtain ⟨h15, hmv⟩ := seedRow_some_inv hrow
    exact hav _ w hmv
  intro p hp v hv
  obtain ⟨i, hi⟩ := List.mem_iff_get?.mp hp
  have hi' : ((dayNums (curveLo s) (curveHi e)).zip (interpolate xs)).get? i
      = some (p.1, p.2) := by rw [Prod.mk.eta]; exact hi
  obtain ⟨hd, hvv⟩ := zip_get_inv _ _ i p.1 p.2 hi'
  have hi_lt : i < xs.length := by
    obtain ⟨hlt, _⟩ := List.get?_eq_some.mp hvv
    rw [interpolate_length] at hlt
    exact hlt
  rw [interpolate_get xs i hi_lt] at hvv
  have hp2 : interpAt xs i = p.2 := Option.some.inj hvv
  apply interpAt_bounds hseeds i v
  rw [hp2, hv]

/-- C10 witness: averages with two distinct values (February 1 kWh/day, every
other month 3 kWh/day) over the padded range [2024-02-01, 2024-04-01], a
61-day curve whose interior days are genuine convex combinations of the Feb 15
and Mar 15 seeds and whose boundary days are flat copies of them. -/
theorem C10_witness :
    (∀ m v, (fun m : Nat => if m = 2 then some (1:ℚ) else some 3) m = some v →
      (1:ℚ) ≤ v ∧ v ≤ 3) ∧
    buildDailyCurve (fun m : Nat => if m = 2 then some (1:ℚ) else some 3)
        ⟨2024, 3, 1⟩ ⟨2024, 3, 1⟩
      = some ((dayNums (curveLo ⟨2024, 3, 1⟩) (curveHi ⟨2024, 3, 1⟩)).zip
          (interpolate (List.replicate 14 none ++ some (1:ℚ) ::
            (List.replicate 28 none ++ some (3:ℚ) :: List.replicate 17 none)))) ∧
    (∀ p ∈ (dayNums (curveLo ⟨2024, 3, 1⟩) (curveHi ⟨2024, 3, 1⟩)).zip
        (interpolate (List.replicate 14 none ++ some (1:ℚ) ::
          (List.replicate 28 none ++ some (3:ℚ) :: List.replicate 17 none))),
      ∀ v, p.2 = some v → (1:ℚ) ≤ v ∧ v ≤ 3) := by
  have h1 : ∀ m v, (fun m : Nat => if m = 2 then some (1:ℚ) else some 3) m = some v →
      (1:ℚ) ≤ v ∧ v ≤ 3 := by
    intro m v h
    dsimp only at h
    by_cases hm : m = 2
    · rw [if_pos hm] at h
      rw [← Option.some.inj h]
      norm_num
    · rw [if_neg hm] at h
      rw [← Option.some.inj h]
      norm_num
  have hseed : seedCurve (fun m : Nat => if m = 2 then some (1:ℚ) else some 3)
      (dayNums (curveLo ⟨2024, 3, 1⟩) (curveHi ⟨2024, 3, 1⟩))
      = some (List.replicate 14 none ++ some (1:ℚ) ::
          (List.replicate 28 none ++ some (3:ℚ) :: List.replicate 17 none)) := by
    decide
  have h2 : buildDailyCurve (fun m : Nat => if m = 2 then some (1:ℚ) else some 3)
      ⟨2024, 3, 1⟩ ⟨2024, 3, 1⟩
      = some ((dayNums (curveLo ⟨2024, 3, 1⟩) (curveHi ⟨2024, 3, 1⟩)).zip
          (interpolate (List.replicate 14 none ++ some (1:ℚ) ::
            (List.replicate 28 none ++ some (3:ℚ) :: List.replicate 17 none)))) := by
    unfold buildDailyCurve
    rw [hseed]
    rfl
  exact ⟨h1, h2,
    C10_values_bounded (fun m : Nat => if m = 2 then some (1:ℚ) else some 3) 1 3 h1
      ⟨2024, 3, 1⟩ ⟨2024, 3, 1⟩ _ h2⟩

/-- C9 helper: filtering a zipped curve by key range counts the keys in
range. -/
theorem curve_filter_length (ds : List Int) (vals : List (Option ℚ))
    (hlen : vals.length = ds.length) (a b : Int) :
    ((ds.zip vals).filter (fun p => decide (a ≤ p.1) && decide (p.1 ≤ b))).length
      = (ds.filter (fun n => decide (a ≤ n) && decide (n ≤ b))).length :=
  zip_filter_fst_length (fun n => decide (a ≤ n) && decide (n ≤ b)) ds vals hlen

/-- C3: for every range of at least one day, a successfully seeded daily
curve spans every calendar day from start − 1 month to end + 1 month in date
order, every entry has a defined value after interpolation, and leading and
trailing gaps are flat-filled from the nearest seeded value. -/
theorem C3_curve_total (av : Nat → Option ℚ) (s e : Date)
    (hs : s.Valid) (he : e.Valid) (hse : toRataDie s ≤ toRataDie e)
    (xs : List (Option ℚ))
    (hseed : seedCurve av (dayNums (curveLo s) (curveHi e)) = some xs) :
    buildDailyCurve av s e
        = some ((dayNums (curveLo s) (curveHi e)).zip (interpolate xs)) ∧
    (dayNums (curveLo s) (curveHi e)).length = (curveHi e - curveLo s).toNat + 1 ∧
    (∀ i : Nat, i < (curveHi e - curveLo s).toNat + 1 →
      (dayNums (curveLo s) (curveHi e)).get? i = some (curveLo s + i)) ∧
    (∀ p ∈ (dayNums (curveLo s) (curveHi e)).zip (interpolate xs), p.2.isSome) ∧
    (∀ k b, nextSeed xs 0 = some (k, b) → ∀ i, i ≤ k → interpAt xs i = some b) ∧
    (∀ k b, prevSeed xs (xs.length - 1) = some (k, b) → ∀ i, k ≤ i →
      interpAt xs i = some b) := by
  have hw := curve_window s e hs he
  have hlole : curveLo s ≤ curveHi e := by omega
  obtain ⟨i0, v0, hseed0⟩ := curve_seed_exists av s e hs he hse hseed
  refine ⟨?_, dayNums_length _ _ hlole, ?_, ?_, ?_, ?_⟩
  · unfold buildDailyCurve
    rw [hseed]
    rfl
  · intro i hi
    exact dayNums_get _ _ hlole i hi
  · intro p hp
    obtain ⟨i, hi⟩ := List.mem_iff_get?.mp hp
    have hi' : ((dayNums (curveLo s) (curveHi e)).zip (interpolate xs)).get? i
        = some (p.1, p.2) := by rw [Prod.mk.eta]; exact hi
    obtain ⟨hd, hv⟩ := zip_get_inv _ _ i p.1 p.2 hi'
    have hi_lt : i < xs.length := by
      obtain ⟨hlt, _⟩ := List.get?_eq_some.mp hv
      rw [interpolate_length] at hlt
      exact hlt
    rw [interpolate_get xs i hi_lt] at hv
    have hp2 : interpAt xs i = p.2 := Option.some.inj hv
    rw [← hp2]
    exact interpAt_isSome hseed0 i
  · intro k b hfirst i hik
    exact interpAt_before_first hfirst hik
  · intro k b hlast i hik
    exact interpAt_after_last hlast hik

/-- C3 witness: the one-day request 2024-03-01, padded to
[2024-02-01, 2024-04-01] (61 days, seeded at Feb 15 and Mar 15). -/
theorem C3_witness :
    Date.Valid ⟨2024, 3, 1⟩ ∧
    toRataDie ⟨2024, 3, 1⟩ ≤ toRataDie ⟨2024, 3, 1⟩ ∧
    seedCurve (fun _ : Nat => some (1:ℚ))
        (dayNums (curveLo ⟨2024, 3, 1⟩) (curveHi ⟨2024, 3, 1⟩))
      = some (List.replicate 14 none ++ some (1:ℚ) ::
          (List.replicate 28 none ++ some (1:ℚ) :: List.replicate 17 none)) ∧
    (buildDailyCurve (fun _ : Nat => some (1:ℚ)) ⟨2024, 3, 1⟩ ⟨2024, 3, 1⟩
        = some ((dayNums (curveLo ⟨2024, 3, 1⟩) (curveHi ⟨2024, 3, 1⟩)).zip
            (interpolate (List.replicate 14 none ++ some (1:ℚ) ::
              (List.replicate 28 none ++ some (1:ℚ) :: List.replicate 17 none)))) ∧
      (dayNums (curveLo ⟨2024, 3, 1⟩) (curveHi ⟨2024, 3, 1⟩)).length
        = (curveHi ⟨2024, 3, 1⟩ - curveLo ⟨2024, 3, 1⟩).toNat + 1 ∧
      (∀ i : Nat, i < (curveHi ⟨2024, 3, 1⟩ - curveLo ⟨2024, 3, 1⟩).toNat + 1 →
        (dayNums (curveLo ⟨2024, 3, 1⟩) (curveHi ⟨2024, 3, 1⟩)).get? i
          = some (curveLo ⟨2024, 3, 1⟩ + i)) ∧
      (∀ p ∈ (dayNums (curveLo ⟨2024, 3, 1⟩) (curveHi ⟨2024, 3, 1⟩)).zip
          (interpolate (List.replicate 14 none ++ some (1:ℚ) ::
            (List.replicate 28 none ++ some (1:ℚ) :: List.replicate 17 none))),
        p.2.isSome) ∧
      (∀ k b, nextSeed (List.replicate 14 none ++ some (1:ℚ) ::
            (List.replicate 28 none ++ some (1:ℚ) :: List.replicate 17 none)) 0
          = some (k, b) → ∀ i, i ≤ k →
        interpAt (List.replicate 14 none ++ some (1:ℚ) ::
          (List.replicate 28 none ++ some (1:ℚ) :: List.replicate 17 none)) i
          = some b) ∧
      (∀ k b, prevSeed (List.replicate 14 none ++ some (1:ℚ) ::
            (List.replicate 28 none ++ some (1:ℚ) :: List.replicate 17 none))
            ((List.replicate 14 none ++ some (1:ℚ) ::
              (List.replicate 28 none ++ some (1:ℚ) ::
                List.replicate 17 none)).length - 1)
          = some (k, b) → ∀ i, k ≤ i →
        interpAt (List.replicate 14 none ++ some (1:ℚ) ::
          (List.replicate 28 none ++ some (1:ℚ) :: List.replicate 17 none)) i
          = some b)) :=
  ⟨by decide, le_refl _, by decide,
    C3_curve_total (fun _ : Nat => some (1:ℚ)) ⟨2024, 3, 1⟩ ⟨2024, 3, 1⟩
      (by decide) (by decide) (le_refl _) _ (by decide)⟩

/-- C9: constant seasonal averages X for all 12 months give a daily curve
that is constantly X, and the estimated energy for a range forecast from its
first day is exactly X times the number of days in the range, rounded only at
the output step. -/
theorem C9_constant_roundtrip (av : Nat → Option ℚ) (X : ℚ)
    (hconst : ∀ m : Nat, 1 ≤ m → m ≤ 12 → av m = some X)
    (s e : Date) (hs : s.Valid) (he : e.Valid)
    (hse : toRataDie s ≤ toRataDie e) (energyYearWh energyTodayWh : ℚ) :
    ∃ c, buildDailyCurve av s e = some c ∧
      (∀ p ∈ c, p.2 = some X) ∧
      (reconcile c (toRataDie s) (toRataDie e) (toRataDie s)
          energyYearWh energyTodayWh).estimated
        = pythonRound (X * ((toRataDie e - toRataDie s + 1 : Int) : ℚ)) := by
  have hw := curve_window s e hs he
  have hlole : curveLo s ≤ curveHi e := by omega
  have hsome : (seedCurve av (dayNums (curveLo s) (curveHi e))).isSome := by
    apply seedCurve_isSome_of
    intro n _ _
    rw [hconst (fromRataDie n).month (fromRataDie_fields n).1
      (fromRataDie_fields n).2.1]
    rfl
  obtain ⟨xs, hxs⟩ := Option.isSome_iff_exists.mp hsome
  have hlen : xs.length = (dayNums (curveLo s) (curveHi e)).length :=
    seedCurve_length hxs
  have hseedX : ∀ j w, seedAt xs j = some w → w = X := by
    intro j w hw'
    have hj : j < xs.length := seedAt_lt_length hw'
    obtain ⟨n, hn⟩ : ∃ n, (dayNums (curveLo s) (curveHi e)).get? j = some n := by
      cases hng : (dayNums (curveLo s) (curveHi e)).get? j with
      | none => rw [List.get?_eq_none] at hng; omega
      | some n => exact ⟨n, rfl⟩
    obtain ⟨o, hrow, hxsj⟩ := seedCurve_get hxs hn
    have ho : o = some w := by
      unfold seedAt at hw'
      rw [hxsj] at hw'
      exact hw'
    subst ho
    obtain ⟨h15, hmv⟩ := seedRow_some_inv hrow
    have := hconst (fromRataDie n).month (fromRataDie_fields n).1
      (fromRataDie_fields n).2.1
    rw [this] at hmv
    exact (Option.some.inj hmv).symm
  obtain ⟨i0, v0, hseed0⟩ := curve_seed_exists av s e hs he hse hxs
  have hconstc : ∀ p ∈ (dayNums (curveLo s) (curveHi e)).zip (interpolate xs),
      p.2 = some X := by
    intro p hp
    obtain ⟨i, hi⟩ := List.mem_iff_get?.mp hp
    have hi' : ((dayNums (curveLo s) (curveHi e)).zip (interpolate xs)).get? i
        = some (p.1, p.2) := by rw [Prod.mk.eta]; exact hi
    obtain ⟨hd, hv⟩ := zip_get_inv _ _ i p.1 p.2 hi'
    have hi_lt : i < xs.length := by
      obtain ⟨hlt, _⟩ := List.get?_eq_some.mp hv
      rw [interpolate_length] at hlt
      exact hlt
    rw [interpolate_get xs i hi_lt] at hv
    have hp2 : interpAt xs i = p.2 := Option.some.inj hv
    obtain ⟨w, hw'⟩ := Option.isSome_iff_exists.mp (interpAt_isSome hseed0 i)
    rw [← hp2, hw', interpAt_const hseedX hw']
  refine ⟨(dayNums (curveLo s) (curveHi e)).zip (interpolate xs), ?_, hconstc, ?_⟩
  · unfold buildDailyCurve
    rw [hxs]
    rfl
  · have hlen2 : (interpolate xs).length = (dayNums (curveLo s) (curveHi e)).length := by
      rw [interpolate_length]
      exact hlen
    have hsl : ∀ a b : Int,
        sliceSum ((dayNums (curveLo s) (curveHi e)).zip (interpolate xs)) a b
          = X * (((dayNums (curveLo s) (curveHi e)).filter
              (fun n => decide (a ≤ n) && decide (n ≤ b))).length : ℚ) := by
      intro a b
      rw [sliceSum_const hconstc a b, curve_filter_length _ _ hlen2 a b]
    unfold reconcile
    dsimp only
    rw [hsl, hsl]
    rw [dayNums_filter_length _ _ _ _ hlole, dayNums_filter_length _ _ _ _ hlole]
    have hc1 : (min (toRataDie s) (curveHi e) - max (toRataDie s) (curveLo s)
        + 1).toNat = 1 := by omega
    have hc2 : (min (toRataDie e) (curveHi e) - max (toRataDie s + 1) (curveLo s)
        + 1).toNat = (toRataDie e - toRataDie s).toNat := by omega
    rw [hc1, hc2]
    congr 1
    have h0 : (0:Int) ≤ toRataDie e - toRataDie s := by omega
    have hcast : (((toRataDie e - toRataDie s).toNat : Nat) : ℚ)
        = ((toRataDie e - toRataDie s : Int) : ℚ) := by
      exact_mod_cast Int.toNat_of_nonneg h0
    rw [hcast]
    push_cast
    ring

/-- C9 witness: constant 10 kWh/day over March 2024 (31 days), forecast from
March 1st. -/
theorem C9_witness :
    (∀ m : Nat, 1 ≤ m → m ≤ 12 → (fun _ : Nat => some (10:ℚ)) m = some 10) ∧
    Date.Valid ⟨2024, 3, 1⟩ ∧ Date.Valid ⟨2024, 3, 31⟩ ∧
    toRataDie ⟨2024, 3, 1⟩ ≤ toRataDie ⟨2024, 3, 31⟩ ∧
    ∃ c, buildDailyCurve (fun _ : Nat => some (10:ℚ)) ⟨2024, 3, 1⟩ ⟨2024, 3, 31⟩
        = some c ∧
      (∀ p ∈ c, p.2 = some (10:ℚ)) ∧
      (reconcile c (toRataDie ⟨2024, 3, 1⟩) (toRataDie ⟨2024, 3, 31⟩)
          (toRataDie ⟨2024, 3, 1⟩) 450000 12000).estimated
        = pythonRound ((10:ℚ) *
            ((toRataDie ⟨2024, 3, 31⟩ - toRataDie ⟨2024, 3, 1⟩ + 1 : Int) : ℚ)) :=
  ⟨fun _ _ _ => rfl, by decide, by decide, by decide,
    C9_constant_roundtrip (fun _ : Nat => some (10:ℚ)) 10 (fun _ _ _ => rfl)
      ⟨2024, 3, 1⟩ ⟨2024, 3, 31⟩ (by decide) (by decide) (by decide) 450000 12000⟩
